import Mathlib

/-!
Shallow embedding of the volume-reconstruction and threshold-brush core of the
medical-app repository (sources: src/utils/volumeLoader.ts,
src/utils/ThresholdBrushTool.ts, src/components/CornerstoneViewer.tsx).

JavaScript numbers are modelled as `Option ℚ` (`none` is NaN); JavaScript
strings are modelled as `List Char`; typed arrays are modelled as Lean lists
with JavaScript write semantics (an out-of-range write is a silent no-op,
matching `List.set`).
-/

namespace MedApp

/-- Model of a JavaScript number as it occurs in this code base:
`some q` is the finite value `q`, `none` is NaN. -/
abbrev JSNum := Option ℚ

/-- JavaScript subtraction on the number model: NaN propagates. -/
def jsub (a b : JSNum) : JSNum :=
  match a, b with
  | some p, some q => some (p - q)
  | _, _ => none

/-- JavaScript `Math.abs` on the number model: NaN propagates. -/
def jabs (a : JSNum) : JSNum :=
  match a with
  | some p => some |p|
  | none => none

/-- JavaScript division on the number model. NaN propagates; a zero divisor
is mapped to NaN (the divisors in the embedded code are nonzero on every
reachable path, so the infinite cases never arise). -/
def jdiv (a b : JSNum) : JSNum :=
  match a, b with
  | some p, some q => if q = 0 then none else some (p / q)
  | _, _ => none

/-- JavaScript `<` on the number model: any comparison with NaN is false. -/
def jltB (a b : JSNum) : Bool :=
  match a, b with
  | some p, some q => decide (p < q)
  | _, _ => false

/-- JavaScript `>` on the number model: any comparison with NaN is false. -/
def jgtB (a b : JSNum) : Bool :=
  match a, b with
  | some p, some q => decide (q < p)
  | _, _ => false

/-- Value of a decimal digit string (most significant first). -/
def digitsToNat (ds : List Char) : ℕ :=
  ds.foldl (fun a c => a * 10 + (c.toNat - 48)) 0

/-- JavaScript whitespace characters skipped by `parseFloat`. -/
def wsChar (c : Char) : Bool :=
  c = ' ' || c = '\t' || c = '\n' || c = '\r'

/-- Result of scanning a decimal numeral: sign, integer digits, fraction
digits, exponent, and whether at least one digit was consumed. -/
structure FloatScan where
  neg : Bool
  ip : List Char
  fp : List Char
  exp : ℤ
  ok : Bool
deriving DecidableEq

/-- Syntactic part of the JavaScript `parseFloat` builtin: skip leading
whitespace, then scan an optional sign, integer digits, an optional fraction
and an optional exponent, taking the longest numeric prefix. -/
def scanFloat (s : List Char) : FloatScan :=
  let cs := s.dropWhile wsChar
  let neg := cs.headD ' ' = '-'
  let cs1 := if cs.headD ' ' = '-' ∨ cs.headD ' ' = '+' then cs.tail else cs
  let ip := cs1.takeWhile Char.isDigit
  let cs2 := cs1.dropWhile Char.isDigit
  let fp := if cs2.headD ' ' = '.' then cs2.tail.takeWhile Char.isDigit else []
  let cs3 := if cs2.headD ' ' = '.' then cs2.tail.dropWhile Char.isDigit else cs2
  let expPart : ℤ :=
    if cs3.headD ' ' = 'e' ∨ cs3.headD ' ' = 'E' then
      let cs4 := cs3.tail
      let esgn : ℤ := if cs4.headD ' ' = '-' then -1 else 1
      let cs5 := if cs4.headD ' ' = '-' ∨ cs4.headD ' ' = '+' then cs4.tail else cs4
      let ed := cs5.takeWhile Char.isDigit
      if ed = [] then 0 else esgn * (digitsToNat ed : ℤ)
    else 0
  ⟨decide neg, ip, fp, expPart, decide ¬(ip = [] ∧ fp = [])⟩

/-- Model of the JavaScript `parseFloat` builtin, restricted to finite decimal
numerals; if no digit is consumed the result is NaN (`none`). -/
def parseFloat (s : List Char) : JSNum :=
  let sc := scanFloat s
  if sc.ok then
    some ((if sc.neg then -1 else 1) *
      ((digitsToNat sc.ip : ℚ) + (digitsToNat sc.fp : ℚ) / ((10 : ℚ) ^ sc.fp.length)) *
      (10 : ℚ) ^ sc.exp)
  else none

lemma parseFloat_of_scan_none (s : List Char) (h : (scanFloat s).ok = false) :
    parseFloat s = none := by
  simp [parseFloat, h]

lemma parseFloat_of_scan (s : List Char) (sc : FloatScan) (h : scanFloat s = sc)
    (hok : sc.ok = true) :
    parseFloat s = some ((if sc.neg then -1 else 1) *
      ((digitsToNat sc.ip : ℚ) + (digitsToNat sc.fp : ℚ) / ((10 : ℚ) ^ sc.fp.length)) *
      (10 : ℚ) ^ sc.exp) := by
  simp [parseFloat, h, hok]

/-- Model of JavaScript `String.prototype.split` with a one-character
separator: `splitChar sep s` cuts `s` at every occurrence of `sep`.
On the empty string it returns one empty part, as in JavaScript. -/
def splitChar (sep : Char) : List Char → List (List Char)
  | [] => [[]]
  | c :: t =>
      let r := splitChar sep t
      if c = sep then [] :: r
      else
        match r with
        | h :: t2 => (c :: h) :: t2
        | [] => [[c]]

/-- The DICOM header fields of one slice that the embedded code reads,
as exposed by the external parser's tag lookup (`dataset.string` /
`dataset.uint16`): `none` models an absent tag. -/
structure Dataset where
  imagePositionPatient : Option (List Char)
  rowsTag : Option ℕ
  columnsTag : Option ℕ
  pixelSpacing : Option (List Char)
  sliceThickness : Option (List Char)
deriving DecidableEq

/-- Embedding of `getZPosition` (volumeLoader.ts:8-17): read tag x00200032,
split on backslash, and take the third component when the split has exactly
three parts; otherwise 0. The emptiness test models JavaScript truthiness of
the tag string. -/
def getZPosition (ds : Dataset) : JSNum :=
  match ds.imagePositionPatient with
  | some s =>
      if s ≠ [] then
        let positions := splitChar '\\' s
        if positions.length = 3 then parseFloat (positions.getD 2 [])
        else some 0
      else some 0
  | none => some 0

/-- One input file as seen by `createVolumeFromFiles` (volumeLoader.ts:19-150):
`parsed = none` models `dicomParser.parseDicom` throwing (the file is skipped),
`pixels = none` models `cornerstone.loadImage` failing for that slice,
`pixels = some p` models a successfully decoded pixel buffer `p`. -/
structure FileInput where
  parsed : Option Dataset
  pixels : Option (List ℤ)
deriving DecidableEq

/-- One parsed slice paired with its sort key, mirroring the
`{ file, z, dataset }` records built in volumeLoader.ts:25-37. -/
structure SliceData where
  z : JSNum
  dataset : Dataset
  pixels : Option (List ℤ)
deriving DecidableEq

/-- Parse stage of `createVolumeFromFiles` (volumeLoader.ts:25-40): files whose
parse fails are dropped, the rest carry their z position. -/
def parseFiles (files : List FileInput) : List SliceData :=
  files.filterMap (fun f => f.parsed.map (fun ds => ⟨getZPosition ds, ds, f.pixels⟩))

/-- Insertion into a z-ascending list, modelling one step of the comparator
sort `fileData.sort((a, b) => a.z - b.z)` (volumeLoader.ts:47): the new
element is placed before the first entry with strictly larger key, hence
after every entry whose key is not larger. Comparisons with NaN are false,
so an element with a NaN key sinks to the end. -/
def insertZ (a : SliceData) : List SliceData → List SliceData
  | [] => [a]
  | b :: t => if jltB a.z b.z then a :: b :: t else b :: insertZ a t

/-- Sort by z position (volumeLoader.ts:47): the elements are inserted in
input order, each landing after every already-placed entry whose key is not
strictly larger, so slices with equal z keep their input order — the ES2019
`Array.prototype.sort` is stable. -/
def sortSlices (l : List SliceData) : List SliceData :=
  l.foldl (fun acc a => insertZ a acc) []

/-- JavaScript `dataset.uint16(tag) || default`: an absent tag and the falsy
value 0 both fall back to the default (volumeLoader.ts:54-55). -/
def jsUint16OrDefault (tag : Option ℕ) (dflt : ℕ) : ℕ :=
  match tag with
  | some v => if v = 0 then dflt else v
  | none => dflt

/-- Embedding of the in-plane spacing resolution (volumeLoader.ts:57-66):
x spacing is the second component of tag x00280030, y spacing the first;
defaults are (1, 1). -/
def resolveSpacingXY (tag : Option (List Char)) : JSNum × JSNum :=
  match tag with
  | some s =>
      if s ≠ [] then
        let spacing := splitChar '\\' s
        if spacing.length = 2 then (parseFloat (spacing.getD 1 []), parseFloat (spacing.getD 0 []))
        else (some 1, some 1)
      else (some 1, some 1)
  | none => (some 1, some 1)

/-- Embedding of the through-plane spacing resolution
(volumeLoader.ts:68-89), applied to the z keys of the z-sorted slices:
start from 1; with more than one slice use `|(lastZ - firstZ) / (n - 1)|`;
if a slice thickness is declared and the computed spacing is below 0.01 or
differs from the declared thickness by more than 0.1, the declared thickness
wins; finally an exact 0 is replaced by 1. -/
def resolveSpacingZ (zs : List JSNum) (thicknessTag : Option (List Char)) : JSNum :=
  let s1 : JSNum :=
    if 1 < zs.length then
      jabs (jdiv (jsub (zs.getLastD (some 0)) (zs.headD (some 0)))
        (some ((zs.length : ℚ) - 1)))
    else some 1
  let s2 : JSNum :=
    match thicknessTag with
    | some str =>
        if str ≠ [] then
          let t := parseFloat str
          if jltB s1 (some (1 / 100)) || jgtB (jabs (jsub s1 t)) (some (1 / 10)) then t
          else s1
        else s1
    | none => s1
  if s2 = some 0 then some 1 else s2

/-- Embedding of the origin resolution (volumeLoader.ts:91-102): if the
middle slice declares a position, the origin is the first sorted slice's
position triplet mapped through `parseFloat`; otherwise `[0, 0, 0]`. -/
def resolveOrigin (middle first : Dataset) : List JSNum :=
  match middle.imagePositionPatient with
  | some s =>
      if s ≠ [] then
        match first.imagePositionPatient with
        | some fs =>
            if fs ≠ [] then (splitChar '\\' fs).map parseFloat
            else [some 0, some 0, some 0]
        | none => [some 0, some 0, some 0]
      else [some 0, some 0, some 0]
  | none => [some 0, some 0, some 0]

/-- JavaScript `Int16Array` element conversion: the value is reduced to the
signed 16-bit range. -/
def toInt16 (v : ℤ) : ℤ :=
  (v + 2 ^ 15) % 2 ^ 16 - 2 ^ 15

/-- One `scalarData.set(pixelData, offset)` call (volumeLoader.ts:126):
element `j` of `p` is written at `off + j` with `Int16Array` conversion. An
index at or past the end of the buffer leaves it unchanged, like the model's
`List.set`; the embedded call always stays in range. -/
def writeSlice (buf : List ℤ) (off : ℕ) (p : List ℤ) : List ℤ :=
  (List.range p.length).foldl (fun b j => b.set (off + j) (toInt16 (p.getD j 0))) buf

/-- One iteration of the pixel-data loading loop (volumeLoader.ts:111-133)
for slice index `i`: a failed load (`none`) or a pixel buffer whose length is
not `columns*rows` leaves the state unchanged (the `catch` and the
`continue`); a valid buffer is copied to offset `i*columns*rows` and counted
in `loadedCount`. -/
def loadStep (columns rows : ℕ) (pixelsList : List (Option (List ℤ)))
    (st : List ℤ × ℕ) (i : ℕ) : List ℤ × ℕ :=
  match pixelsList.getD i none with
  | some p =>
      if p.length = columns * rows then
        (writeSlice st.1 (i * columns * rows) p, st.2 + 1)
      else st
  | none => st

/-- Embedding of the pixel-data loading loop (volumeLoader.ts:106-133): the
buffer starts as `columns*rows*n` zeros (a fresh `Int16Array` is
zero-initialised) and every slice index is visited in order. -/
def buildScalarData (columns rows : ℕ) (pixelsList : List (Option (List ℤ))) :
    List ℤ × ℕ :=
  (List.range pixelsList.length).foldl (loadStep columns rows pixelsList)
    (List.replicate (columns * rows * pixelsList.length) 0, 0)

/-- Whether a slice's pixel data survives the validation of the loading loop:
it loaded and has exactly `cr` samples. -/
def sliceOk (cr : ℕ) (po : Option (List ℤ)) : Bool :=
  match po with
  | some p => decide (p.length = cr)
  | none => false

/-- The data `createVolumeFromFiles` hands to its caller through the
`vtkImageData` instance (volumeLoader.ts:136-149), together with the loaded
slice counter it maintains (volumeLoader.ts:110). -/
structure VolumeResult where
  origin : List JSNum
  spacing : List JSNum
  columns : ℕ
  rows : ℕ
  numSlices : ℕ
  scalarData : List ℤ
  loadedCount : ℕ
deriving DecidableEq

/-- A placeholder slice used as the default of list lookups that the control
flow keeps in range. -/
def defaultSlice : SliceData :=
  ⟨some 0, ⟨none, none, none, none, none⟩, none⟩

/-- Embedding of `createVolumeFromFiles` (volumeLoader.ts:19-150): empty
input and input with no parsable file give `none` (the `null` returns at
lines 20 and 44); otherwise the slices are sorted by z, metadata is read
from the middle sorted slice, and the scalar buffer is filled slice by
slice. -/
def createVolumeFromFiles (files : List FileInput) : Option VolumeResult :=
  if files.length = 0 then none
  else
    let fileData := parseFiles files
    if fileData.length = 0 then none
    else
      let sorted := sortSlices fileData
      let middleIndex := fileData.length / 2
      let middle := (sorted.getD middleIndex defaultSlice).dataset
      let rows := jsUint16OrDefault middle.rowsTag 512
      let columns := jsUint16OrDefault middle.columnsTag 512
      let sp := resolveSpacingXY middle.pixelSpacing
      let spacingZ := resolveSpacingZ (sorted.map SliceData.z) middle.sliceThickness
      let origin := resolveOrigin middle (sorted.headD defaultSlice).dataset
      let built := buildScalarData columns rows (sorted.map SliceData.pixels)
      some ⟨origin, [sp.1, sp.2, spacingZ], columns, rows, fileData.length,
        built.1, built.2⟩

/-- The fields of the displayed cornerstone image that
`ThresholdBrushTool._paint` reads (ThresholdBrushTool.ts:21-41): plane
dimensions, the raw pixel buffer, and the rescale slope/intercept. -/
structure BrushImage where
  rows : ℕ
  columns : ℕ
  pixelData : List ℤ
  slope : ℚ
  intercept : ℚ

/-- The bounding square of offsets iterated by the nested loops
`for i in [-radius, radius], for j in [-radius, radius]`
(ThresholdBrushTool.ts:47-48), outer index first. -/
def diskOffsets (radius : ℕ) : List (ℤ × ℤ) :=
  (List.range (2 * radius + 1)).flatMap (fun (a : ℕ) =>
    (List.range (2 * radius + 1)).map (fun (b : ℕ) => ((a : ℤ) - radius, (b : ℤ) - radius)))

/-- Rescaled intensity of the pixel at `index`:
`rawValue * slope + intercept` (ThresholdBrushTool.ts:57-58). -/
def huValue (img : BrushImage) (index : ℕ) : ℚ :=
  (img.pixelData.getD index 0 : ℚ) * img.slope + img.intercept

/-- Body of the brush loops (ThresholdBrushTool.ts:49-71) for one offset
`(i, j)`: inside the disk, compute the floored absolute coordinate, skip it
when out of the plane bounds, and write the active segment index at pixels
whose rescaled value meets the threshold, counting each write. -/
def paintStep (img : BrushImage) (threshold : ℚ) (radius : ℕ) (x y : ℚ) (seg : ℕ)
    (st : List ℕ × ℕ) (ij : ℤ × ℤ) : List ℕ × ℕ :=
  if ij.1 * ij.1 + ij.2 * ij.2 ≤ (radius : ℤ) * radius then
    let coordX : ℤ := ⌊x + ij.1⌋
    let coordY : ℤ := ⌊y + ij.2⌋
    if 0 ≤ coordX ∧ coordX < (img.columns : ℤ) ∧ 0 ≤ coordY ∧ coordY < (img.rows : ℤ) then
      let index := coordY.toNat * img.columns + coordX.toNat
      if threshold ≤ huValue img index then
        (st.1.set index seg, st.2 + 1)
      else st
    else st
  else st

/-- Embedding of `ThresholdBrushTool._paint` (ThresholdBrushTool.ts:19-83):
a center outside the plane returns unchanged (the early return at lines
28-30); otherwise the bounding square is scanned and the label plane is
updated in place. The result is the new label plane together with
`paintedPixels`. -/
def paint (img : BrushImage) (threshold : ℚ) (radius : ℕ) (x y : ℚ) (seg : ℕ)
    (labelmap : List ℕ) : List ℕ × ℕ :=
  if x < 0 ∨ (img.columns : ℚ) ≤ x ∨ y < 0 ∨ (img.rows : ℚ) ≤ y then (labelmap, 0)
  else (diskOffsets radius).foldl (paintStep img threshold radius x y seg) (labelmap, 0)

/-- Embedding of `extractLabelMap` (CornerstoneViewer.tsx:381-431): starting
from a zeroed `width*height*numSlices` byte buffer, every slice that has a
label plane contributes a 1 at offset `i*width*height + j` for each plane
element `j` holding a non-zero segment id. `planes` maps a slice index to
its label plane, `none` meaning no plane exists for that slice. -/
def extractLabelMap (width height numSlices : ℕ) (planes : ℕ → Option (List ℕ)) :
    List ℕ :=
  (List.range numSlices).foldl
    (fun labelMapData i =>
      match planes i with
      | some p =>
          (List.range p.length).foldl
            (fun m j => if 0 < p.getD j 0 then m.set (i * width * height + j) 1 else m)
            labelMapData
      | none => labelMapData)
    (List.replicate (width * height * numSlices) 0)

/-- Sequentially overwriting the entries of `m` at the indices `idxs` with
the value `v`; used to summarise the in-place writes of the paint and
consolidation loops. -/
def setSeg (m : List ℕ) (idxs : List ℕ) (v : ℕ) : List ℕ :=
  idxs.foldl (fun a k => a.set k v) m

lemma setSeg_cons (m : List ℕ) (a : ℕ) (t : List ℕ) (v : ℕ) :
    setSeg m (a :: t) v = setSeg (m.set a v) t v := rfl

lemma setSeg_length (idxs : List ℕ) (m : List ℕ) (v : ℕ) :
    (setSeg m idxs v).length = m.length := by
  induction idxs generalizing m with
  | nil => rfl
  | cons a t ih => rw [setSeg_cons, ih, List.length_set]

lemma getD_set_general {α : Type} (d : α) (m : List α) (i : ℕ) (v : α) (k : ℕ) :
    (m.set i v).getD k d = if i = k ∧ k < m.length then v else m.getD k d := by
  by_cases hk : k < m.length
  · by_cases hik : i = k
    · subst hik
      simp [List.getD_eq_getElem?_getD, List.getElem?_set_eq_of_lt _ hk, hk]
    · simp [List.getD_eq_getElem?_getD, List.getElem?_set_ne hik, hik]
  · have h1 : m.length ≤ k := Nat.le_of_not_lt hk
    have h2 : (m.set i v).length ≤ k := by rwa [List.length_set]
    simp [List.getD_eq_getElem?_getD, List.getElem?_eq_none h1, List.getElem?_eq_none h2, hk]

lemma setSeg_getD (idxs : List ℕ) (m : List ℕ) (v : ℕ) (k : ℕ) :
    (setSeg m idxs v).getD k 0 = if k ∈ idxs ∧ k < m.length then v else m.getD k 0 := by
  induction idxs generalizing m with
  | nil => simp [setSeg]
  | cons a t ih =>
      rw [setSeg_cons, ih, List.length_set, getD_set_general]
      split_ifs <;> first
        | rfl
        | (exfalso; simp_all [List.mem_cons])

/-- The in-bounds absolute plane index addressed by brush offset `(i, j)`
around center `(x, y)`, if any: the coordinate and bounds logic of
ThresholdBrushTool.ts:50-54, without the threshold test. -/
def coordIndex (img : BrushImage) (x y : ℚ) (ij : ℤ × ℤ) : Option ℕ :=
  let coordX : ℤ := ⌊x + ij.1⌋
  let coordY : ℤ := ⌊y + ij.2⌋
  if 0 ≤ coordX ∧ coordX < (img.columns : ℤ) ∧ 0 ≤ coordY ∧ coordY < (img.rows : ℤ) then
    some (coordY.toNat * img.columns + coordX.toNat)
  else none

/-- The plane index written by one brush loop iteration, if any: offset in
the disk, coordinate in bounds, rescaled value at or above the threshold. -/
def paintHit (img : BrushImage) (threshold : ℚ) (radius : ℕ) (x y : ℚ)
    (ij : ℤ × ℤ) : Option ℕ :=
  if ij.1 * ij.1 + ij.2 * ij.2 ≤ (radius : ℤ) * radius then
    let coordX : ℤ := ⌊x + ij.1⌋
    let coordY : ℤ := ⌊y + ij.2⌋
    if 0 ≤ coordX ∧ coordX < (img.columns : ℤ) ∧ 0 ≤ coordY ∧ coordY < (img.rows : ℤ) then
      let index := coordY.toNat * img.columns + coordX.toNat
      if threshold ≤ huValue img index then some index else none
    else none
  else none

/-- All plane indices written by one `_paint` call with an in-bounds center,
in loop order. -/
def paintHits (img : BrushImage) (threshold : ℚ) (radius : ℕ) (x y : ℚ) : List ℕ :=
  (diskOffsets radius).filterMap (paintHit img threshold radius x y)

lemma paintStep_eq (img : BrushImage) (threshold : ℚ) (radius : ℕ) (x y : ℚ)
    (seg : ℕ) (st : List ℕ × ℕ) (ij : ℤ × ℤ) :
    paintStep img threshold radius x y seg st ij =
      match paintHit img threshold radius x y ij with
      | some index => (st.1.set index seg, st.2 + 1)
      | none => st := by
  simp only [paintStep, paintHit]
  split_ifs with h1 h2 h3 <;> rfl

lemma foldl_paintStep (img : BrushImage) (threshold : ℚ) (radius : ℕ) (x y : ℚ)
    (seg : ℕ) (L : List (ℤ × ℤ)) (m : List ℕ) (c : ℕ) :
    L.foldl (paintStep img threshold radius x y seg) (m, c) =
      (setSeg m (L.filterMap (paintHit img threshold radius x y)) seg,
        c + (L.filterMap (paintHit img threshold radius x y)).length) := by
  induction L generalizing m c with
  | nil => simp [setSeg]
  | cons ij L ih =>
      rw [List.foldl_cons, paintStep_eq]
      cases h : paintHit img threshold radius x y ij with
      | none => rw [List.filterMap_cons_none h]; exact ih m c
      | some k =>
          rw [List.filterMap_cons_some h, ih, setSeg_cons]
          simp [Nat.add_assoc, Nat.add_comm 1]

lemma paint_out (img : BrushImage) (threshold : ℚ) (radius : ℕ) (x y : ℚ)
    (seg : ℕ) (lm : List ℕ)
    (h : x < 0 ∨ (img.columns : ℚ) ≤ x ∨ y < 0 ∨ (img.rows : ℚ) ≤ y) :
    paint img threshold radius x y seg lm = (lm, 0) := by
  rw [paint, if_pos h]

lemma paint_in (img : BrushImage) (threshold : ℚ) (radius : ℕ) (x y : ℚ)
    (seg : ℕ) (lm : List ℕ)
    (h : ¬(x < 0 ∨ (img.columns : ℚ) ≤ x ∨ y < 0 ∨ (img.rows : ℚ) ≤ y)) :
    paint img threshold radius x y seg lm =
      (setSeg lm (paintHits img threshold radius x y) seg,
        (paintHits img threshold radius x y).length) := by
  rw [paint, if_neg h, foldl_paintStep, paintHits, Nat.zero_add]

lemma paintHit_some (img : BrushImage) (threshold : ℚ) (radius : ℕ) (x y : ℚ)
    (ij : ℤ × ℤ) (k : ℕ)
    (h : paintHit img threshold radius x y ij = some k) :
    ij.1 * ij.1 + ij.2 * ij.2 ≤ (radius : ℤ) * radius ∧
      0 ≤ ⌊x + ij.1⌋ ∧ ⌊x + ij.1⌋ < (img.columns : ℤ) ∧
      0 ≤ ⌊y + ij.2⌋ ∧ ⌊y + ij.2⌋ < (img.rows : ℤ) ∧
      k = (⌊y + ij.2⌋).toNat * img.columns + (⌊x + ij.1⌋).toNat ∧
      threshold ≤ huValue img k := by
  simp only [paintHit] at h
  split_ifs at h with h1 h2 h3
  · rcases Option.some_inj.1 h with rfl
    exact ⟨h1, h2.1, h2.2.1, h2.2.2.1, h2.2.2.2, rfl, h3⟩

lemma paintHit_some_threshold (img : BrushImage) (threshold : ℚ) (radius : ℕ)
    (x y : ℚ) (ij : ℤ × ℤ) (k : ℕ)
    (h : paintHit img threshold radius x y ij = some k) :
    threshold ≤ huValue img k :=
  (paintHit_some img threshold radius x y ij k h).2.2.2.2.2.2

lemma paintHit_some_decomp (img : BrushImage) (threshold : ℚ) (radius : ℕ)
    (x y : ℚ) (ij : ℤ × ℤ) (k : ℕ)
    (h : paintHit img threshold radius x y ij = some k) :
    ∃ row col : ℕ, row < img.rows ∧ col < img.columns ∧
      k = row * img.columns + col := by
  obtain ⟨-, hx0, hxc, hy0, hyr, hk, -⟩ := paintHit_some img threshold radius x y ij k h
  refine ⟨(⌊y + ij.2⌋).toNat, (⌊x + ij.1⌋).toNat, ?_, ?_, hk⟩
  · omega
  · omega

lemma paintHit_some_lt (img : BrushImage) (threshold : ℚ) (radius : ℕ)
    (x y : ℚ) (ij : ℤ × ℤ) (k : ℕ)
    (h : paintHit img threshold radius x y ij = some k) :
    k < img.rows * img.columns := by
  obtain ⟨row, col, hr, hc, rfl⟩ := paintHit_some_decomp img threshold radius x y ij k h
  calc row * img.columns + col < row * img.columns + img.columns := by omega
    _ = (row + 1) * img.columns := by ring
    _ ≤ img.rows * img.columns := Nat.mul_le_mul_right _ hr

lemma mem_paintHits_threshold (img : BrushImage) (threshold : ℚ) (radius : ℕ)
    (x y : ℚ) (k : ℕ) (h : k ∈ paintHits img threshold radius x y) :
    threshold ≤ huValue img k := by
  obtain ⟨ij, -, hij⟩ := List.mem_filterMap.1 h
  exact paintHit_some_threshold img threshold radius x y ij k hij

lemma paintHit_inj (img : BrushImage) (threshold : ℚ) (radius : ℕ) (x y : ℚ)
    (ij ij' : ℤ × ℤ) (k : ℕ)
    (h : paintHit img threshold radius x y ij = some k)
    (h' : paintHit img threshold radius x y ij' = some k) : ij = ij' := by
  obtain ⟨-, hx0, hxc, hy0, hyr, hk, -⟩ := paintHit_some img threshold radius x y ij k h
  obtain ⟨-, hx0', hxc', hy0', hyr', hk', -⟩ := paintHit_some img threshold radius x y ij' k h'
  have hcpos : 0 < img.columns := by omega
  have hBlt : (⌊x + ij.1⌋).toNat < img.columns := by omega
  have hBlt' : (⌊x + ij'.1⌋).toNat < img.columns := by omega
  have hkk : (⌊y + ij.2⌋).toNat * img.columns + (⌊x + ij.1⌋).toNat =
      (⌊y + ij'.2⌋).toNat * img.columns + (⌊x + ij'.1⌋).toNat := by rw [← hk, ← hk']
  have hB : (⌊x + ij.1⌋).toNat = (⌊x + ij'.1⌋).toNat := by
    have e1 := Nat.mul_add_mod img.columns (⌊y + ij.2⌋).toNat (⌊x + ij.1⌋).toNat
    have e2 := Nat.mul_add_mod img.columns (⌊y + ij'.2⌋).toNat (⌊x + ij'.1⌋).toNat
    rw [Nat.mod_eq_of_lt hBlt] at e1
    rw [Nat.mod_eq_of_lt hBlt'] at e2
    rw [← e1, ← e2, Nat.mul_comm img.columns ((⌊y + ij.2⌋).toNat),
      Nat.mul_comm img.columns ((⌊y + ij'.2⌋).toNat), hkk]
  have hA : (⌊y + ij.2⌋).toNat = (⌊y + ij'.2⌋).toNat := by
    have := hkk
    rw [hB] at this
    have h2 : (⌊y + ij.2⌋).toNat * img.columns = (⌊y + ij'.2⌋).toNat * img.columns := by omega
    exact Nat.eq_of_mul_eq_mul_right hcpos h2
  have hBZ : ⌊x + ij.1⌋ = ⌊x + ij'.1⌋ := by omega
  have hAZ : ⌊y + ij.2⌋ = ⌊y + ij'.2⌋ := by omega
  rw [Int.floor_add_int, Int.floor_add_int] at hBZ
  rw [Int.floor_add_int, Int.floor_add_int] at hAZ
  have h1 : ij.1 = ij'.1 := by omega
  have h2 : ij.2 = ij'.2 := by omega
  exact Prod.ext h1 h2

lemma diskOffsets_nodup (r : ℕ) : (diskOffsets r).Nodup := by
  unfold diskOffsets
  refine List.nodup_flatMap.2 ⟨?_, ?_⟩
  · intro a _
    have hinj : Function.Injective (fun b : ℕ => ((a : ℤ) - r, (b : ℤ) - r)) := by
      intro b b' hb
      have h2 := congrArg Prod.snd hb
      simp only at h2
      omega
    exact List.Nodup.map hinj (List.nodup_range (2 * r + 1))
  · refine (List.pairwise_lt_range _).imp ?_
    intro a a' hlt p hp hp'
    obtain ⟨b, -, rfl⟩ := List.mem_map.1 hp
    obtain ⟨b', -, hb'⟩ := List.mem_map.1 hp'
    have := congrArg Prod.fst hb'
    simp only at this
    omega

lemma paintHits_nodup (img : BrushImage) (threshold : ℚ) (radius : ℕ) (x y : ℚ) :
    (paintHits img threshold radius x y).Nodup :=
  List.Nodup.filterMap
    (fun ij ij' k hk hk' =>
      paintHit_inj img threshold radius x y ij ij' k (Option.mem_def.1 hk)
        (Option.mem_def.1 hk'))
    (diskOffsets_nodup radius)

lemma count_eq_filter_range (l : List ℕ) (v : ℕ) :
    l.count v = ((List.range l.length).filter (fun k => l.getD k 0 = v)).length := by
  induction l with
  | nil => rfl
  | cons a t ih =>
      by_cases hav : a = v
      · simp [List.count_cons, hav, List.range_succ_eq_map, List.filter_map, ih,
          Function.comp_def, List.getD_cons_succ, List.getD_cons_zero]
      · simp [List.count_cons, hav, List.range_succ_eq_map, List.filter_map, ih,
          Function.comp_def, List.getD_cons_succ, List.getD_cons_zero]

lemma setSeg_count_ones (m : List ℕ) (ks : List ℕ) (hN : ks.Nodup)
    (hlt : ∀ k ∈ ks, k < m.length) (hm : ∀ k, k < m.length → m.getD k 0 = 0) :
    (setSeg m ks 1).count 1 = ks.length := by
  rw [count_eq_filter_range, setSeg_length]
  have hcongr : (List.range m.length).filter (fun k => (setSeg m ks 1).getD k 0 = 1)
      = (List.range m.length).filter (fun k => k ∈ ks) := by
    refine List.filter_congr ?_
    intro k hk
    rw [List.mem_range] at hk
    rw [setSeg_getD]
    by_cases hks : k ∈ ks
    · simp [hks, hk]
    · have hm' := hm k hk
      simp only [List.getD_eq_getElem?_getD] at hm'
      simp [hks, hm']
  rw [hcongr]
  have hperm : List.Perm ((List.range m.length).filter (fun k => k ∈ ks)) ks := by
    refine (List.perm_ext_iff_of_nodup (List.Nodup.filter _ (List.nodup_range _)) hN).2 ?_
    intro a
    simp only [List.mem_filter, List.mem_range, decide_eq_true_eq]
    exact ⟨fun h => h.2, fun h => ⟨hlt a h, h⟩⟩
  exact hperm.length_eq

/-- The mask offsets a label plane `p` contributes for slice `i`
(CornerstoneViewer.tsx:416-422): `i*width*height + j` for each plane index
`j` holding a non-zero segment id. -/
def onesIdx (width height i : ℕ) (p : List ℕ) : List ℕ :=
  (List.range p.length).filterMap
    (fun j => if 0 < p.getD j 0 then some (i * width * height + j) else none)

lemma foldl_condSet (off : ℕ) (p : List ℕ) (L : List ℕ) (m : List ℕ) :
    L.foldl (fun m j => if 0 < p.getD j 0 then m.set (off + j) 1 else m) m
      = setSeg m (L.filterMap (fun j => if 0 < p.getD j 0 then some (off + j) else none))
          1 := by
  induction L generalizing m with
  | nil => rfl
  | cons a t ih =>
      rw [List.foldl_cons]
      by_cases hp : 0 < p.getD a 0
      · rw [if_pos hp, List.filterMap_cons_some (by rw [if_pos hp]), setSeg_cons, ih]
      · rw [if_neg hp, List.filterMap_cons_none (by rw [if_neg hp]), ih]

lemma filterMap_if_eq_map_filter {α β : Type} (c : α → Prop) [DecidablePred c]
    (f : α → β) (L : List α) :
    L.filterMap (fun a => if c a then some (f a) else none)
      = (L.filter (fun a => c a)).map f := by
  induction L with
  | nil => rfl
  | cons a t ih => by_cases hc : c a <;> simp [hc, ih]

lemma foldl_id_on {β : Type} (step : β → ℕ → β) (L : List ℕ)
    (h : ∀ b i, i ∈ L → step b i = b) (b : β) : L.foldl step b = b := by
  induction L generalizing b with
  | nil => rfl
  | cons a t ih =>
      rw [List.foldl_cons, h b a (List.mem_cons_self a t)]
      exact ih (fun b i hi => h b i (List.mem_cons_of_mem a hi)) b

lemma foldl_eq_step_single {β : Type} (step : β → ℕ → β) (s : ℕ) (L : List ℕ)
    (hnd : L.Nodup) (hs : s ∈ L) (hid : ∀ b i, i ≠ s → step b i = b) (b : β) :
    L.foldl step b = step b s := by
  induction L generalizing b with
  | nil => cases hs
  | cons a t ih =>
      rw [List.foldl_cons]
      by_cases has : a = s
      · subst has
        have hnotin : a ∉ t := (List.nodup_cons.1 hnd).1
        exact foldl_id_on step t
          (fun b i hi => hid b i (fun he => hnotin (he ▸ hi))) (step b a)
      · rw [hid b a (fun he => has he)]
        have hst : s ∈ t := by
          rcases List.mem_cons.1 hs with h | h
          · exact absurd h.symm has
          · exact h
        exact ih (List.nodup_cons.1 hnd).2 hst b

lemma extractLabelMap_single (w h n s : ℕ) (P : List ℕ) (hs : s < n) :
    extractLabelMap w h n (fun i => if i = s then some P else none)
      = setSeg (List.replicate (w * h * n) 0) (onesIdx w h s P) 1 := by
  unfold extractLabelMap
  rw [foldl_eq_step_single _ s _ (List.nodup_range n) (List.mem_range.2 hs) ?_]
  · dsimp only
    rw [if_pos rfl]
    exact foldl_condSet (s * w * h) P (List.range P.length) _
  · intro b i hi
    dsimp only
    rw [if_neg hi]

lemma foldl_set_length {α : Type} (g : ℕ → α) (off : ℕ) (L : List ℕ) (buf : List α) :
    (L.foldl (fun b j => b.set (off + j) (g j)) buf).length = buf.length := by
  induction L generalizing buf with
  | nil => rfl
  | cons a t ih => rw [List.foldl_cons, ih, List.length_set]

lemma writeSlice_length (buf : List ℤ) (off : ℕ) (p : List ℤ) :
    (writeSlice buf off p).length = buf.length :=
  foldl_set_length (fun j => toInt16 (p.getD j 0)) off (List.range p.length) buf

lemma foldl_set_range_getD (g : ℕ → ℤ) (off n : ℕ) (buf : List ℤ) (k : ℕ) :
    ((List.range n).foldl (fun b j => b.set (off + j) (g j)) buf).getD k 0 =
      if off ≤ k ∧ k < off + n ∧ k < buf.length then g (k - off)
      else buf.getD k 0 := by
  induction n with
  | zero =>
      have hno : ¬(off ≤ k ∧ k < off + 0 ∧ k < buf.length) := by omega
      rw [List.range_zero, List.foldl_nil, if_neg hno]
  | succ n ih =>
      rw [List.range_succ, List.foldl_append, List.foldl_cons, List.foldl_nil,
        getD_set_general, foldl_set_length, ih]
      split_ifs with h1 h2 h3 h3 h3
      · have hkn : k - off = n := by omega
        rw [hkn]
      · omega
      · rfl
      · omega
      · omega
      · rfl

lemma writeSlice_getD (buf : List ℤ) (off : ℕ) (p : List ℤ) (k : ℕ) :
    (writeSlice buf off p).getD k 0 =
      if off ≤ k ∧ k < off + p.length ∧ k < buf.length then toInt16 (p.getD (k - off) 0)
      else buf.getD k 0 :=
  foldl_set_range_getD (fun j => toInt16 (p.getD j 0)) off p.length buf k

lemma loadStep_none (columns rows : ℕ) (pl : List (Option (List ℤ)))
    (st : List ℤ × ℕ) (i : ℕ) (h : pl.getD i none = none) :
    loadStep columns rows pl st i = st := by
  unfold loadStep
  rw [h]

lemma loadStep_valid (columns rows : ℕ) (pl : List (Option (List ℤ)))
    (st : List ℤ × ℕ) (i : ℕ) (p : List ℤ) (h : pl.getD i none = some p)
    (hv : p.length = columns * rows) :
    loadStep columns rows pl st i = (writeSlice st.1 (i * columns * rows) p, st.2 + 1) := by
  unfold loadStep
  rw [h]
  dsimp only
  rw [if_pos hv]

lemma loadStep_invalid (columns rows : ℕ) (pl : List (Option (List ℤ)))
    (st : List ℤ × ℕ) (i : ℕ) (p : List ℤ) (h : pl.getD i none = some p)
    (hv : ¬p.length = columns * rows) :
    loadStep columns rows pl st i = st := by
  unfold loadStep
  rw [h]
  dsimp only
  rw [if_neg hv]

lemma loadStep_fst_length (columns rows : ℕ) (pl : List (Option (List ℤ)))
    (st : List ℤ × ℕ) (i : ℕ) :
    (loadStep columns rows pl st i).1.length = st.1.length := by
  cases hpo : pl.getD i none with
  | none => rw [loadStep_none columns rows pl st i hpo]
  | some p =>
      by_cases hv : p.length = columns * rows
      · rw [loadStep_valid columns rows pl st i p hpo hv]
        exact writeSlice_length st.1 (i * columns * rows) p
      · rw [loadStep_invalid columns rows pl st i p hpo hv]

lemma buildLoop_length (columns rows : ℕ) (pl : List (Option (List ℤ)))
    (L : List ℕ) (st : List ℤ × ℕ) :
    ((L.foldl (loadStep columns rows pl) st).1).length = st.1.length := by
  induction L generalizing st with
  | nil => rfl
  | cons a t ih => rw [List.foldl_cons, ih, loadStep_fst_length]

lemma buildLoop_snd (columns rows : ℕ) (pl : List (Option (List ℤ)))
    (L : List ℕ) (st : List ℤ × ℕ) :
    (L.foldl (loadStep columns rows pl) st).2 =
      st.2 + L.countP (fun i => sliceOk (columns * rows) (pl.getD i none)) := by
  induction L generalizing st with
  | nil => simp
  | cons a t ih =>
      rw [List.foldl_cons, List.countP_cons, ih]
      cases hpo : pl.getD a none with
      | none =>
          rw [loadStep_none columns rows pl st a hpo]
          have hok : sliceOk (columns * rows) none = false := rfl
          simp [hpo, hok]
      | some p =>
          by_cases hv : p.length = columns * rows
          · rw [loadStep_valid columns rows pl st a p hpo hv]
            have hok : sliceOk (columns * rows) (some p) = true := by
              simp [sliceOk, hv]
            simp [hpo, hok]
            omega
          · rw [loadStep_invalid columns rows pl st a p hpo hv]
            have hok : sliceOk (columns * rows) (some p) = false := by
              simp [sliceOk, hv]
            simp [hpo, hok]

lemma buildLoop_getD (columns rows : ℕ) (pl : List (Option (List ℤ)))
    (L : List ℕ) (buf : List ℤ) (cnt : ℕ) (i j : ℕ)
    (hj : j < columns * rows) (hbuf : i * columns * rows + j < buf.length) :
    ((L.foldl (loadStep columns rows pl) (buf, cnt)).1).getD (i * columns * rows + j) 0 =
      if i ∈ L ∧ sliceOk (columns * rows) (pl.getD i none) then
        toInt16 (((pl.getD i none).getD []).getD j 0)
      else buf.getD (i * columns * rows + j) 0 := by
  induction L generalizing buf cnt with
  | nil => simp
  | cons a t ih =>
      rw [List.foldl_cons]
      cases hpo : pl.getD a none with
      | none =>
          rw [loadStep_none columns rows pl (buf, cnt) a hpo, ih buf cnt hbuf]
          by_cases hia : i = a
          · subst hia
            have hok : sliceOk (columns * rows) (pl.getD i none) = false := by
              rw [hpo]
              rfl
            simp only [hok]
            simp
          · have hiff : (i ∈ a :: t ∧ sliceOk (columns * rows) (pl.getD i none) = true) ↔
                (i ∈ t ∧ sliceOk (columns * rows) (pl.getD i none) = true) := by
              simp [List.mem_cons, hia]
            rw [if_congr hiff rfl rfl]
      | some p =>
          by_cases hv : p.length = columns * rows
          · rw [loadStep_valid columns rows pl (buf, cnt) a p hpo hv]
            have hbuf' : i * columns * rows + j < (writeSlice buf (a * columns * rows) p).length := by
              rwa [writeSlice_length]
            rw [ih (writeSlice buf (a * columns * rows) p) (cnt + 1) hbuf']
            by_cases hit : i ∈ t ∧ sliceOk (columns * rows) (pl.getD i none) = true
            · rw [if_pos hit, if_pos ⟨List.mem_cons_of_mem a hit.1, hit.2⟩]
            · rw [if_neg hit, writeSlice_getD]
              by_cases hia : i = a
              · subst hia
                have hin : i * columns * rows ≤ i * columns * rows + j ∧
                    i * columns * rows + j < i * columns * rows + p.length ∧
                    i * columns * rows + j < buf.length := by
                  refine ⟨Nat.le_add_right _ _, ?_, hbuf⟩
                  omega
                rw [if_pos hin,
                  if_pos ⟨List.mem_cons_self _ _, by rw [hpo]; simp [sliceOk, hv]⟩]
                rw [Nat.add_sub_cancel_left, hpo]
                rfl
              · have hcr1 : i * columns * rows = i * (columns * rows) :=
                  Nat.mul_assoc i columns rows
                have hcr2 : a * columns * rows = a * (columns * rows) :=
                  Nat.mul_assoc a columns rows
                have hdisj : ¬(a * columns * rows ≤ i * columns * rows + j ∧
                    i * columns * rows + j < a * columns * rows + p.length ∧
                    i * columns * rows + j < buf.length) := by
                  intro hcon
                  rw [hv, hcr1, hcr2] at hcon
                  rcases Nat.lt_or_ge i a with hlt | hge
                  · have h1 : (i + 1) * (columns * rows) ≤ a * (columns * rows) :=
                      Nat.mul_le_mul_right _ hlt
                    rw [Nat.succ_mul] at h1
                    omega
                  · have hgt : a < i := by omega
                    have h1 : (a + 1) * (columns * rows) ≤ i * (columns * rows) :=
                      Nat.mul_le_mul_right _ hgt
                    rw [Nat.succ_mul] at h1
                    omega
                rw [if_neg hdisj]
                have hiff : (i ∈ a :: t ∧ sliceOk (columns * rows) (pl.getD i none) = true) ↔
                    (i ∈ t ∧ sliceOk (columns * rows) (pl.getD i none) = true) := by
                  simp [List.mem_cons, hia]
                rw [if_neg (fun hc => hit (hiff.1 hc))]
          · rw [loadStep_invalid columns rows pl (buf, cnt) a p hpo hv]
            rw [ih buf cnt hbuf]
            by_cases hia : i = a
            · subst hia
              have hok : sliceOk (columns * rows) (pl.getD i none) = false := by
                rw [hpo]
                simp [sliceOk, hv]
              simp only [hok]
              simp
            · have hiff : (i ∈ a :: t ∧ sliceOk (columns * rows) (pl.getD i none) = true) ↔
                  (i ∈ t ∧ sliceOk (columns * rows) (pl.getD i none) = true) := by
                simp [List.mem_cons, hia]
              rw [if_congr hiff rfl rfl]

/-- C9: for every input file whose position tag is absent, or whose position
string does not split into exactly three backslash-delimited components, the
through-plane sort coordinate is 0 — indistinguishable from a slice whose
real position is the well-formed triplet 0\0\0; a three-component triplet
whose third component is non-numeric yields NaN rather than 0. -/
lemma getZPosition_none (ds : Dataset) (h : ds.imagePositionPatient = none) :
    getZPosition ds = some 0 := by
  unfold getZPosition
  rw [h]

lemma getZPosition_some (ds : Dataset) (s : List Char)
    (h : ds.imagePositionPatient = some s) :
    getZPosition ds =
      if s ≠ [] then
        (if (splitChar '\\' s).length = 3 then parseFloat ((splitChar '\\' s).getD 2 [])
         else some 0)
      else some 0 := by
  unfold getZPosition
  rw [h]

theorem claim_C9 (ds : Dataset) :
    (ds.imagePositionPatient = none → getZPosition ds = some 0) ∧
    (∀ s, ds.imagePositionPatient = some s → (splitChar '\\' s).length ≠ 3 →
      getZPosition ds = some 0 ∧
      getZPosition ds =
        getZPosition ⟨some ['0', '\\', '0', '\\', '0'], ds.rowsTag, ds.columnsTag,
          ds.pixelSpacing, ds.sliceThickness⟩) ∧
    (∀ s, ds.imagePositionPatient = some s → (splitChar '\\' s).length = 3 →
      parseFloat ((splitChar '\\' s).getD 2 []) = none →
      getZPosition ds = none ∧ getZPosition ds ≠ some 0) := by
  have hzero : getZPosition ⟨some ['0', '\\', '0', '\\', '0'], ds.rowsTag, ds.columnsTag,
      ds.pixelSpacing, ds.sliceThickness⟩ = some 0 := by
    rw [getZPosition_some _ ['0', '\\', '0', '\\', '0'] rfl, if_pos (by decide),
      if_pos (by decide),
      show (splitChar '\\' ['0', '\\', '0', '\\', '0']).getD 2 [] = ['0'] from by decide,
      parseFloat_of_scan ['0'] ⟨false, ['0'], [], 0, true⟩ (by decide) rfl]
    norm_num [show digitsToNat ['0'] = 0 from by decide,
      show digitsToNat ([] : List Char) = 0 from by decide]
  refine ⟨?_, ?_, ?_⟩
  · intro h
    exact getZPosition_none ds h
  · intro s hs hlen
    have h0 : getZPosition ds = some 0 := by
      rw [getZPosition_some ds s hs]
      by_cases hse : s = []
      · rw [if_neg (by simp [hse])]
      · rw [if_pos (by simpa using hse), if_neg hlen]
    exact ⟨h0, by rw [h0, hzero]⟩
  · intro s hs hlen hpf
    have hn : getZPosition ds = none := by
      rw [getZPosition_some ds s hs]
      have hse : s ≠ [] := by
        intro he
        rw [he] at hlen
        exact absurd hlen (by decide)
      rw [if_pos (by simpa using hse), if_pos hlen, hpf]
    exact ⟨hn, by rw [hn]; exact fun h => Option.noConfusion h⟩

/-- C9 witness: a dataset with an absent tag, one with a two-component
triplet, and one with a non-numeric third component, all evaluated. -/
theorem claim_C9_witness :
    getZPosition ⟨none, none, none, none, none⟩ = some 0 ∧
    getZPosition ⟨some ['1', '\\', '2'], none, none, none, none⟩ = some 0 ∧
    getZPosition ⟨some ['1', '\\', '2', '\\', 'a'], none, none, none, none⟩ = none :=
  ⟨(claim_C9 ⟨none, none, none, none, none⟩).1 rfl,
    ((claim_C9 ⟨some ['1', '\\', '2'], none, none, none, none⟩).2.1
      ['1', '\\', '2'] rfl (by decide)).1,
    ((claim_C9 ⟨some ['1', '\\', '2', '\\', 'a'], none, none, none, none⟩).2.2
      ['1', '\\', '2', '\\', 'a'] rfl (by decide) (by decide)).1⟩

lemma jltB_some (a b : ℚ) : jltB (some a) (some b) = decide (a < b) := rfl

lemma jgtB_some (a b : ℚ) : jgtB (some a) (some b) = decide (b < a) := rfl

lemma jsub_some (a b : ℚ) : jsub (some a) (some b) = some (a - b) := rfl

lemma jabs_some (a : ℚ) : jabs (some a) = some |a| := rfl

lemma jdiv_some (a b : ℚ) (h : b ≠ 0) : jdiv (some a) (some b) = some (a / b) := by
  simp [jdiv, h]

lemma parseFloat_25 : parseFloat ['2', '.', '5'] = some (5 / 2) := by
  rw [parseFloat_of_scan ['2', '.', '5'] ⟨false, ['2'], ['5'], 0, true⟩ (by decide) rfl]
  norm_num [show digitsToNat ['2'] = 2 from by decide, show digitsToNat ['5'] = 5 from by decide]

/-- Reduction of the through-plane resolution for a single slice: the
computed-spacing branch is skipped and the base value is 1. -/
lemma resolveSpacingZ_single (z : JSNum) (tag : Option (List Char)) :
    resolveSpacingZ [z] tag =
      (match tag with
        | some str =>
            if str ≠ [] then
              (if jltB (some 1) (some (1 / 100))
                  || jgtB (jabs (jsub (some 1) (parseFloat str))) (some (1 / 10)) then
                (if parseFloat str = some 0 then some 1 else parseFloat str)
              else some 1)
            else some 1
        | none => some 1) := by
  unfold resolveSpacingZ
  have h1 : ¬(1 < ([z] : List JSNum).length) := by simp
  rw [if_neg h1]
  cases tag with
  | none => rfl
  | some str =>
      dsimp only
      split_ifs <;> rfl

/-- C4 counterexample: a single-slice collection whose header declares a
slice thickness of 2.5 resolves to through-plane spacing 2.5, not the fixed
default 1, refuting "the resolved spacing is the fixed default 1 regardless
of any declared slice thickness". -/
theorem claim_C4_counterexample :
    resolveSpacingZ [some 0] (some ['2', '.', '5']) = some (5 / 2) ∧
    ((5 / 2 : ℚ) = 1 → False) := by
  constructor
  · rw [resolveSpacingZ_single]
    dsimp only
    have hc : (jltB (some 1) (some (1 / 100))
        || jgtB (jabs (jsub (some 1) (parseFloat ['2', '.', '5']))) (some (1 / 10))) = true := by
      rw [parseFloat_25, jsub_some, jabs_some, jgtB_some, jltB_some]
      have habs : |(1 : ℚ) - 5 / 2| = 3 / 2 := by
        rw [abs_of_nonpos (by norm_num)]
        norm_num
      rw [habs]
      simp only [Bool.or_eq_true, decide_eq_true_eq]
      right
      norm_num
    rw [if_pos (by decide), hc]
    simp only [if_true]
    rw [parseFloat_25, if_neg (by norm_num)]
  · intro h
    norm_num at h

/-- C4 amended: for a single-slice collection the spacing resolves to the
fixed default 1 when no thickness is declared, when the declared thickness is
non-numeric, when it is within 0.1 of 1, or when it is exactly 0; a declared
numeric thickness farther than 0.1 from 1 overrides the default and is used
as the resolved spacing. -/
theorem claim_C4_amended (z : JSNum) (str : List Char) (q : ℚ)
    (hne : str ≠ []) (hq : parseFloat str = some q) :
    resolveSpacingZ [z] none = some 1 ∧
    (∀ str' : List Char, parseFloat str' = none →
      resolveSpacingZ [z] (some str') = some 1) ∧
    (|1 - q| ≤ 1 / 10 → resolveSpacingZ [z] (some str) = some 1) ∧
    (1 / 10 < |1 - q| → q ≠ 0 → resolveSpacingZ [z] (some str) = some q) ∧
    (1 / 10 < |1 - q| → q = 0 → resolveSpacingZ [z] (some str) = some 1) := by
  have hlt100 : ¬((1 : ℚ) < 1 / 100) := by norm_num
  refine ⟨by rw [resolveSpacingZ_single], ?_, ?_, ?_, ?_⟩
  · intro str' hpf
    rw [resolveSpacingZ_single]
    dsimp only
    by_cases hse : str' ≠ []
    · have hc : (jltB (some 1) (some (1 / 100))
          || jgtB (jabs (jsub (some 1) (parseFloat str'))) (some (1 / 10))) = false := by
        rw [hpf, jltB_some]
        simp only [jsub, jabs, jgtB, Bool.or_false, decide_eq_false_iff_not]
        exact hlt100
      rw [if_pos hse, hc]
      simp
    · rw [if_neg hse]
  · intro hle
    rw [resolveSpacingZ_single]
    dsimp only
    have hc : (jltB (some 1) (some (1 / 100))
        || jgtB (jabs (jsub (some 1) (parseFloat str))) (some (1 / 10))) = false := by
      rw [hq, jsub_some, jabs_some, jgtB_some, jltB_some]
      simp only [Bool.or_eq_false_iff, decide_eq_false_iff_not, not_lt]
      exact ⟨by norm_num, hle⟩
    rw [if_pos hne, hc]
    simp
  · intro hgt hq0
    rw [resolveSpacingZ_single]
    dsimp only
    have hc : (jltB (some 1) (some (1 / 100))
        || jgtB (jabs (jsub (some 1) (parseFloat str))) (some (1 / 10))) = true := by
      rw [hq, jsub_some, jabs_some, jgtB_some, jltB_some]
      simp only [Bool.or_eq_true, decide_eq_true_eq]
      exact Or.inr hgt
    rw [if_pos hne, hc]
    simp only [if_true]
    rw [hq, if_neg (by simpa using hq0)]
  · intro hgt hq0
    rw [resolveSpacingZ_single]
    dsimp only
    have hc : (jltB (some 1) (some (1 / 100))
        || jgtB (jabs (jsub (some 1) (parseFloat str))) (some (1 / 10))) = true := by
      rw [hq, jsub_some, jabs_some, jgtB_some, jltB_some]
      simp only [Bool.or_eq_true, decide_eq_true_eq]
      exact Or.inr hgt
    rw [if_pos hne, hc]
    simp only [if_true]
    rw [hq, hq0, if_pos rfl]

/-- C4 witness: the amended claim applied to one slice with declared
thickness "2.5", which overrides the default. -/
theorem claim_C4_witness :
    (['2', '.', '5'] : List Char) ≠ [] ∧
    resolveSpacingZ [some 0] (some ['2', '.', '5']) = some (5 / 2) :=
  ⟨by decide,
    (claim_C4_amended (some 0) ['2', '.', '5'] (5 / 2) (by decide) parseFloat_25).2.2.2.1
      (by rw [show |(1 : ℚ) - 5 / 2| = 3 / 2 from by rw [abs_of_nonpos (by norm_num)]; norm_num]
          norm_num)
      (by norm_num)⟩

/-- C3 counterexample: two slices at z positions 0 and 0.005 with no declared
thickness give a computed through-plane spacing of 0.005 — near-zero by the
code's own 0.01 degeneracy tolerance — and the code keeps it: the fallback
chain does not replace near-zero computed spacings when no thickness is
declared, refuting "a zero or near-zero computed through-plane spacing is
never kept but is replaced by the fallback chain". -/
theorem claim_C3_counterexample :
    resolveSpacingZ [some 0, some (1 / 200)] none = some (1 / 200) ∧
    (0 : ℚ) < 1 / 200 ∧ (1 / 200 : ℚ) < 1 / 100 ∧ ((1 / 200 : ℚ) = 1 → False) := by
  refine ⟨?_, by norm_num, by norm_num, by norm_num⟩
  unfold resolveSpacingZ
  dsimp only
  have h1 : 1 < ([some 0, some (1 / 200)] : List JSNum).length := by norm_num
  have hlast : ([some 0, some (1 / 200)] : List JSNum).getLastD (some 0)
      = some (1 / 200) := rfl
  have hhead : ([some 0, some (1 / 200)] : List JSNum).headD (some 0) = some 0 := rfl
  have hlen : (([some 0, some (1 / 200)] : List JSNum).length : ℚ) - 1 = 1 := by
    norm_num
  rw [if_pos h1, hlast, hhead, jsub_some, hlen, jdiv_some _ _ (by norm_num), jabs_some]
  have habs : |(1 / 200 - 0 : ℚ) / 1| = 1 / 200 := by
    rw [abs_of_nonneg (by norm_num)]
    norm_num
  rw [habs, if_neg (by norm_num)]

/-- C3 amended: for every slice collection of size at least 2 whose positions
are real numbers and whose declared thickness, when present and non-empty,
parses to a nonnegative number, the resolved through-plane spacing is
strictly positive; moreover an exactly-zero spacing is never persisted for
any input. A positive near-zero computed spacing (below 0.01) is, however,
kept when no thickness is declared (see the counterexample). -/
theorem claim_C3_amended (zs : List JSNum) (tag : Option (List Char))
    (hn : 2 ≤ zs.length)
    (hreal : ∀ z ∈ zs, ∃ q : ℚ, z = some q)
    (hthick : ∀ str, tag = some str → str ≠ [] →
      ∃ t : ℚ, parseFloat str = some t ∧ 0 ≤ t) :
    (∃ q : ℚ, resolveSpacingZ zs tag = some q ∧ 0 < q) ∧
    (∀ (zs' : List JSNum) (tag' : Option (List Char)),
      resolveSpacingZ zs' tag' ≠ some 0) := by
  have hfin : ∀ v : ℚ, 0 ≤ v →
      ∃ q : ℚ, (if (some v : JSNum) = some 0 then (some 1 : JSNum) else some v)
        = some q ∧ 0 < q := by
    intro v hv
    by_cases h0 : (some v : JSNum) = some 0
    · rw [if_pos h0]
      exact ⟨1, rfl, one_pos⟩
    · rw [if_neg h0]
      have hne : v ≠ 0 := by simpa using h0
      exact ⟨v, rfl, lt_of_le_of_ne hv (Ne.symm hne)⟩
  constructor
  · unfold resolveSpacingZ
    dsimp only
    have h1 : 1 < zs.length := by omega
    obtain ⟨q0, hq0⟩ : ∃ q : ℚ, zs.headD (some 0) = some q := by
      cases zs with
      | nil => simp at hn
      | cons z0 t =>
          obtain ⟨q0, hq0⟩ := hreal z0 (List.mem_cons_self _ _)
          exact ⟨q0, by rw [List.headD_cons, hq0]⟩
    obtain ⟨qL, hqL⟩ : ∃ q : ℚ, zs.getLastD (some 0) = some q := by
      cases zs with
      | nil => simp at hn
      | cons z0 t =>
          have hne : z0 :: t ≠ [] := by simp
          obtain ⟨qL, hqL⟩ := hreal _ (List.getLast_mem hne)
          refine ⟨qL, ?_⟩
          rw [List.getLastD_eq_getLast?, List.getLast?_eq_getLast _ hne]
          simpa using hqL
    have hden : ((zs.length : ℚ) - 1) ≠ 0 := by
      have h2 : (2 : ℚ) ≤ (zs.length : ℚ) := by exact_mod_cast hn
      intro h0
      linarith
    have hS1 : (if 1 < zs.length then
        jabs (jdiv (jsub (zs.getLastD (some 0)) (zs.headD (some 0)))
          (some ((zs.length : ℚ) - 1)))
      else some 1) = some |(qL - q0) / ((zs.length : ℚ) - 1)| := by
      rw [if_pos h1, hqL, hq0, jsub_some, jdiv_some _ _ hden, jabs_some]
    simp only [hS1]
    have hcpos : (0 : ℚ) ≤ |(qL - q0) / ((zs.length : ℚ) - 1)| := abs_nonneg _
    cases tag with
    | none => exact hfin _ hcpos
    | some str =>
        dsimp only
        by_cases hse : str ≠ []
        · rw [if_pos hse]
          obtain ⟨t, hpf, ht⟩ := hthick str rfl hse
          by_cases hcond : (jltB (some |(qL - q0) / ((zs.length : ℚ) - 1)|) (some (1 / 100))
              || jgtB (jabs (jsub (some |(qL - q0) / ((zs.length : ℚ) - 1)|)
                  (parseFloat str))) (some (1 / 10))) = true
          · rw [if_pos hcond, hpf]
            exact hfin t ht
          · rw [if_neg hcond]
            exact hfin _ hcpos
        · rw [if_neg hse]
          exact hfin _ hcpos
  · have hzf : ∀ s2 : JSNum, (if s2 = some 0 then (some 1 : JSNum) else s2) ≠ some 0 := by
      intro s2
      by_cases h : s2 = some 0
      · rw [if_pos h]
        simp
      · rw [if_neg h]
        exact h
    intro zs' tag'
    unfold resolveSpacingZ
    dsimp only
    exact hzf _

/-- C3 witness: two slices at z positions 0 and 5, no declared thickness —
the resolved spacing is strictly positive. -/
theorem claim_C3_witness :
    2 ≤ ([some 0, some 5] : List JSNum).length ∧
    (∃ q : ℚ, resolveSpacingZ [some 0, some 5] none = some q ∧ 0 < q) :=
  ⟨by decide,
    (claim_C3_amended [some 0, some 5] none (by decide)
      (by
        intro z hz
        rcases List.mem_cons.1 hz with rfl | hz2
        · exact ⟨0, rfl⟩
        · rcases List.mem_cons.1 hz2 with rfl | hz3
          · exact ⟨5, rfl⟩
          · exact absurd hz3 (List.not_mem_nil z))
      (fun str hstr _ => nomatch hstr)).1⟩

lemma insertZ_length (a : SliceData) (l : List SliceData) :
    (insertZ a l).length = l.length + 1 := by
  induction l with
  | nil => rfl
  | cons b t ih =>
      unfold insertZ
      by_cases h : jltB a.z b.z = true
      · rw [if_pos h]
        simp
      · rw [if_neg h, List.length_cons, ih, List.length_cons]

lemma sortSlices_length (l : List SliceData) : (sortSlices l).length = l.length := by
  unfold sortSlices
  suffices h : ∀ acc : List SliceData,
      (l.foldl (fun acc a => insertZ a acc) acc).length = acc.length + l.length by
    simpa using h []
  induction l with
  | nil =>
      intro acc
      simp
  | cons a t ih =>
      intro acc
      rw [List.foldl_cons, ih, insertZ_length, List.length_cons]
      omega

lemma getD_replicate_int (n k : ℕ) : (List.replicate n (0 : ℤ)).getD k 0 = 0 := by
  rw [List.getD_eq_getElem?_getD, List.getElem?_replicate]
  by_cases h : k < n
  · rw [if_pos h]
    rfl
  · rw [if_neg h]
    rfl

/-- If the loading loop counted zero valid slices, the returned buffer is the
untouched zero initialisation. -/
lemma buildScalarData_zero (columns rows : ℕ) (pl : List (Option (List ℤ)))
    (h : (buildScalarData columns rows pl).2 = 0) :
    (buildScalarData columns rows pl).1 =
      List.replicate (columns * rows * pl.length) 0 := by
  have hsnd := buildLoop_snd columns rows pl (List.range pl.length)
    (List.replicate (columns * rows * pl.length) 0, 0)
  unfold buildScalarData at h ⊢
  have hcount : (List.range pl.length).countP
      (fun i => sliceOk (columns * rows) (pl.getD i none)) = 0 := by omega
  have hall := List.countP_eq_zero.1 hcount
  have hlen : ((List.range pl.length).foldl (loadStep columns rows pl)
      (List.replicate (columns * rows * pl.length) 0, 0)).1.length =
      columns * rows * pl.length := by
    rw [buildLoop_length, List.length_replicate]
  rw [List.eq_replicate_iff]
  refine ⟨hlen, ?_⟩
  intro b hb
  obtain ⟨k, hk, hbk⟩ := List.mem_iff_getElem.1 hb
  rw [← List.getD_eq_getElem _ 0 hk] at hbk
  rw [hlen] at hk
  by_cases hcr : 0 < columns * rows
  · have hkdm : (k / (columns * rows)) * columns * rows + k % (columns * rows) = k := by
      rw [Nat.mul_assoc, Nat.mul_comm (k / (columns * rows))]
      exact Nat.div_add_mod k (columns * rows)
    have hjlt : k % (columns * rows) < columns * rows := Nat.mod_lt _ hcr
    have hilt : k / (columns * rows) < pl.length :=
      (Nat.div_lt_iff_lt_mul hcr).2 (by
        rw [Nat.mul_comm pl.length (columns * rows)]
        exact hk)
    have hbuf : (k / (columns * rows)) * columns * rows + k % (columns * rows) <
        (List.replicate (columns * rows * pl.length) (0 : ℤ)).length := by
      rw [List.length_replicate, hkdm]
      exact hk
    have := buildLoop_getD columns rows pl (List.range pl.length)
      (List.replicate (columns * rows * pl.length) 0) 0
      (k / (columns * rows)) (k % (columns * rows)) hjlt hbuf
    rw [hkdm] at this
    rw [this] at hbk
    rw [if_neg (fun hc => hall _ (List.mem_range.2 hilt) hc.2)] at hbk
    rw [getD_replicate_int] at hbk
    exact hbk.symm
  · exfalso
    have : columns * rows = 0 := by omega
    rw [this] at hk
    simp at hk

/-- C2 counterexample: one file that parses as DICOM but whose pixel buffer
has the wrong length (2 samples against declared 1x1). Zero slices survive
validation, yet the build does not fail: it returns a full-length all-zero
buffer with loadedCount 0, refuting "the volume-build operation fails with an
explicit no-valid-volume-data condition". -/
theorem claim_C2_counterexample :
    createVolumeFromFiles [⟨some ⟨none, some 1, some 1, none, none⟩, some [5, 7]⟩] ≠ none ∧
    createVolumeFromFiles [⟨some ⟨none, some 1, some 1, none, none⟩, some [5, 7]⟩] =
      some ⟨[some 0, some 0, some 0], [some 1, some 1, some 1], 1, 1, 1, [0], 0⟩ := by
  have h : createVolumeFromFiles [⟨some ⟨none, some 1, some 1, none, none⟩, some [5, 7]⟩] =
      some ⟨[some 0, some 0, some 0], [some 1, some 1, some 1], 1, 1, 1, [0], 0⟩ := by
    decide
  exact ⟨by rw [h]; exact fun hc => Option.noConfusion hc, h⟩

/-- C2 amended: the volume build fails (returns null) exactly when the input
is empty or when no input file parses as DICOM. When at least one file parses
but zero slices survive pixel validation, the build still succeeds: the
caller receives a full-length (columns*rows*sliceCount) buffer that is
entirely zero, together with loadedCount 0 — not a failure. -/
theorem claim_C2_amended (files : List FileInput) :
    (createVolumeFromFiles files = none ↔ files = [] ∨ parseFiles files = []) ∧
    (∀ r, createVolumeFromFiles files = some r →
      r.scalarData.length = r.columns * r.rows * r.numSlices ∧
      (r.loadedCount = 0 →
        r.scalarData = List.replicate (r.columns * r.rows * r.numSlices) 0)) := by
  constructor
  · unfold createVolumeFromFiles
    by_cases h1 : files.length = 0
    · rw [if_pos h1]
      simp [List.length_eq_zero.1 h1]
    · rw [if_neg h1]
      dsimp only
      by_cases h2 : (parseFiles files).length = 0
      · rw [if_pos h2]
        simp [List.length_eq_zero.1 h2]
      · rw [if_neg h2]
        constructor
        · intro hc
          exact absurd hc (by simp)
        · intro hc
          rcases hc with hc | hc
          · exact absurd (by rw [hc]; rfl : files.length = 0) h1
          · exact absurd (by rw [hc]; rfl : (parseFiles files).length = 0) h2
  · intro r hr
    unfold createVolumeFromFiles at hr
    by_cases h1 : files.length = 0
    · rw [if_pos h1] at hr
      exact absurd hr (by simp)
    · rw [if_neg h1] at hr
      dsimp only at hr
      by_cases h2 : (parseFiles files).length = 0
      · rw [if_pos h2] at hr
        exact absurd hr (by simp)
      · rw [if_neg h2] at hr
        have hre := (Option.some_inj.1 hr).symm
        subst hre
        have hmaplen : ((sortSlices (parseFiles files)).map SliceData.pixels).length
            = (parseFiles files).length := by
          rw [List.length_map, sortSlices_length]
        constructor
        · show (buildScalarData _ _ _).1.length = _
          unfold buildScalarData
          rw [buildLoop_length, List.length_replicate, hmaplen]
        · intro hl0
          show (buildScalarData _ _ _).1 = _
          have hz := buildScalarData_zero _ _
            ((sortSlices (parseFiles files)).map SliceData.pixels) hl0
          rw [hz, hmaplen]

/-- C2 witness: the amended claim applied to the counterexample input — the
build succeeds and the caller receives the all-zero one-voxel buffer. -/
theorem claim_C2_witness :
    ∃ r : VolumeResult,
      createVolumeFromFiles [⟨some ⟨none, some 1, some 1, none, none⟩, some [5, 7]⟩]
        = some r ∧
      r.scalarData = List.replicate (r.columns * r.rows * r.numSlices) 0 := by
  have hr : createVolumeFromFiles [⟨some ⟨none, some 1, some 1, none, none⟩, some [5, 7]⟩]
      = some ⟨[some 0, some 0, some 0], [some 1, some 1, some 1], 1, 1, 1, [0], 0⟩ := by
    decide
  exact ⟨_, hr,
    ((claim_C2_amended [⟨some ⟨none, some 1, some 1, none, none⟩, some [5, 7]⟩]).2 _ hr).2
      (by decide)⟩

/-- C1 amended: the threshold gate applies to every brush invocation, erase
(segment id 0) and paint alike — a pixel whose rescaled value is below the
threshold is never modified, and any pixel the call modifies had rescaled
value at or above the threshold and now holds the active segment id. Erase
does not bypass the gate in this code. -/
theorem claim_C1_amended (img : BrushImage) (threshold : ℚ) (radius : ℕ) (x y : ℚ)
    (seg : ℕ) (lm : List ℕ) (k : ℕ) :
    (huValue img k < threshold →
      (paint img threshold radius x y seg lm).1.getD k 0 = lm.getD k 0) ∧
    ((paint img threshold radius x y seg lm).1.getD k 0 ≠ lm.getD k 0 →
      (paint img threshold radius x y seg lm).1.getD k 0 = seg ∧
        threshold ≤ huValue img k) := by
  by_cases hc : x < 0 ∨ (img.columns : ℚ) ≤ x ∨ y < 0 ∨ (img.rows : ℚ) ≤ y
  · rw [paint_out img threshold radius x y seg lm hc]
    exact ⟨fun _ => rfl, fun h => absurd rfl h⟩
  · rw [paint_in img threshold radius x y seg lm hc]
    dsimp only
    rw [setSeg_getD]
    constructor
    · intro hlt
      rw [if_neg]
      rintro ⟨hmem, -⟩
      exact absurd (mem_paintHits_threshold img threshold radius x y k hmem) (not_le.2 hlt)
    · intro hne
      by_cases hm : k ∈ paintHits img threshold radius x y ∧ k < lm.length
      · rw [if_pos hm] at hne ⊢
        exact ⟨rfl, mem_paintHits_threshold img threshold radius x y k hm.1⟩
      · rw [if_neg hm] at hne
        exact absurd rfl hne

/-- C1 counterexample: an erase invocation (segment id 0, threshold 200,
radius 1, center of a 3x3 plane) over pixels whose rescaled values are all 0.
The claim says every in-bounds disk pixel is set to 0 regardless of value;
the code leaves the center pixel (and every other pixel) at its previous
label 1, because erase is threshold-gated too. -/
theorem claim_C1_counterexample :
    (paint ⟨3, 3, List.replicate 9 0, 1, 0⟩ 200 1 1 1 0 (List.replicate 9 1)).1.getD 4 0
      = 1 ∧
    ((paint ⟨3, 3, List.replicate 9 0, 1, 0⟩ 200 1 1 1 0 (List.replicate 9 1)).1.getD 4 0
      = 0 → False) := by
  have he : paint ⟨3, 3, List.replicate 9 0, 1, 0⟩ 200 1 1 1 0 (List.replicate 9 1)
      = (List.replicate 9 1, 0) := by
    norm_num [paint, paintStep, diskOffsets, huValue, List.range, List.range.loop,
      List.getD]
  exact ⟨by rw [he]; decide, by rw [he]; decide⟩

/-- C1 witness: on a one-pixel plane, erasing over a below-threshold pixel
leaves its label 1 untouched, and erasing over an above-threshold pixel
writes 0. -/
theorem claim_C1_witness :
    huValue ⟨1, 1, [100], 1, 0⟩ 0 < 200 ∧
    (paint ⟨1, 1, [100], 1, 0⟩ 200 0 0 0 0 [1]).1.getD 0 0 = 1 ∧
    ((paint ⟨1, 1, [300], 1, 0⟩ 200 0 0 0 0 [1]).1.getD 0 0 = 0 ∧
      (200 : ℚ) ≤ huValue ⟨1, 1, [300], 1, 0⟩ 0) := by
  have h1 : huValue ⟨1, 1, [100], 1, 0⟩ 0 < 200 := by norm_num [huValue]
  have he : paint ⟨1, 1, [300], 1, 0⟩ 200 0 0 0 0 [1] = ([0], 1) := by
    norm_num [paint, paintStep, diskOffsets, huValue, List.range, List.range.loop,
      List.getD]
  refine ⟨h1, ?_, ?_⟩
  · have h2 := (claim_C1_amended ⟨1, 1, [100], 1, 0⟩ 200 0 0 0 0 [1] 0).1 h1
    rw [h2]
    decide
  · exact (claim_C1_amended ⟨1, 1, [300], 1, 0⟩ 200 0 0 0 0 [1] 0).2 (by rw [he]; decide)

/-- C7: the brush reads and writes only in-bounds plane indices. A center
outside the plane is a no-op returning the plane unchanged with zero painted
pixels; the plane keeps its length; and every modified index decomposes as
`row * columns + col` with the row and column strictly inside the plane. -/
theorem claim_C7 (img : BrushImage) (threshold : ℚ) (radius : ℕ) (x y : ℚ)
    (seg : ℕ) (lm : List ℕ) :
    ((x < 0 ∨ (img.columns : ℚ) ≤ x ∨ y < 0 ∨ (img.rows : ℚ) ≤ y) →
      paint img threshold radius x y seg lm = (lm, 0)) ∧
    (paint img threshold radius x y seg lm).1.length = lm.length ∧
    (∀ k, (paint img threshold radius x y seg lm).1.getD k 0 ≠ lm.getD k 0 →
      ∃ row col, row < img.rows ∧ col < img.columns ∧ k = row * img.columns + col) := by
  refine ⟨paint_out img threshold radius x y seg lm, ?_, ?_⟩
  · by_cases hc : x < 0 ∨ (img.columns : ℚ) ≤ x ∨ y < 0 ∨ (img.rows : ℚ) ≤ y
    · rw [paint_out img threshold radius x y seg lm hc]
    · rw [paint_in img threshold radius x y seg lm hc]
      exact setSeg_length _ _ _
  · intro k hne
    by_cases hc : x < 0 ∨ (img.columns : ℚ) ≤ x ∨ y < 0 ∨ (img.rows : ℚ) ≤ y
    · rw [paint_out img threshold radius x y seg lm hc] at hne
      exact absurd rfl hne
    · rw [paint_in img threshold radius x y seg lm hc] at hne
      dsimp only at hne
      rw [setSeg_getD] at hne
      by_cases hm : k ∈ paintHits img threshold radius x y ∧ k < lm.length
      · obtain ⟨ij, -, hk⟩ := List.mem_filterMap.1 hm.1
        exact paintHit_some_decomp img threshold radius x y ij k hk
      · rw [if_neg hm] at hne
        exact absurd rfl hne

/-- C7 witness: a center at x = -1 outside a 1x1 plane is a no-op, and the
single modified index of an in-bounds paint decomposes inside the plane. -/
theorem claim_C7_witness :
    ((-1 : ℚ) < 0) ∧
    paint ⟨1, 1, [5], 1, 0⟩ 0 1 (-1) 0 1 [0] = ([0], 0) ∧
    (∃ row col, row < 1 ∧ col < 1 ∧ 0 = row * 1 + col) := by
  have he : paint ⟨1, 1, [300], 1, 0⟩ 200 0 0 0 1 [0] = ([1], 1) := by
    norm_num [paint, paintStep, diskOffsets, huValue, List.range, List.range.loop,
      List.getD]
  refine ⟨by norm_num,
    (claim_C7 ⟨1, 1, [5], 1, 0⟩ 0 1 (-1) 0 1 [0]).1 (Or.inl (by norm_num)), ?_⟩
  have h3 := (claim_C7 ⟨1, 1, [300], 1, 0⟩ 200 0 0 0 1 [0]).2.2 0 (by rw [he]; decide)
  exact h3

lemma paintHit_eq_none_of_below (img : BrushImage) (threshold : ℚ) (radius : ℕ)
    (x y : ℚ) (ij : ℤ × ℤ)
    (h : ij.1 * ij.1 + ij.2 * ij.2 ≤ (radius : ℤ) * radius →
      ∀ k, coordIndex img x y ij = some k → huValue img k < threshold) :
    paintHit img threshold radius x y ij = none := by
  simp only [paintHit]
  split_ifs with h1 h2 h3
  · exfalso
    have hc : coordIndex img x y ij
        = some ((⌊y + ij.2⌋).toNat * img.columns + (⌊x + ij.1⌋).toNat) := by
      simp only [coordIndex]
      rw [if_pos h2]
    exact absurd h3 (not_le.2 (h h1 _ hc))
  · rfl
  · rfl
  · rfl

lemma paintHit_mono (img : BrushImage) (radius : ℕ) (x y : ℚ) (ij : ℤ × ℤ)
    (k : ℕ) (t1 t2 : ℚ) (ht : t1 ≤ t2)
    (h : paintHit img t2 radius x y ij = some k) :
    paintHit img t1 radius x y ij = some k := by
  simp only [paintHit] at h ⊢
  split_ifs at h with h1 h2 h3
  · rw [if_pos h1, if_pos h2, if_pos (le_trans ht h3)]
    exact h

lemma filterMap_length_mono {α β : Type} (f g : α → Option β) (L : List α)
    (h : ∀ a ∈ L, ∀ b, f a = some b → ∃ c, g a = some c) :
    (L.filterMap f).length ≤ (L.filterMap g).length := by
  induction L with
  | nil => simp
  | cons a t ih =>
      have ih2 := ih (fun a ha => h a (List.mem_cons_of_mem _ ha))
      cases hfa : f a with
      | none =>
          rw [List.filterMap_cons_none hfa]
          cases hga : g a with
          | none =>
              rw [List.filterMap_cons_none hga]
              exact ih2
          | some c =>
              rw [List.filterMap_cons_some hga, List.length_cons]
              omega
      | some b =>
          obtain ⟨c, hga⟩ := h a (List.mem_cons_self _ _) b hfa
          rw [List.filterMap_cons_some hfa, List.filterMap_cons_some hga,
            List.length_cons, List.length_cons]
          omega

/-- C6: painting a disk over a region whose rescaled values are all below the
threshold paints zero pixels — only offsets satisfying the disk test
`i*i + j*j <= radius*radius` need be below, values elsewhere in the bounding
square are unconstrained — and raising the threshold never increases the
painted-pixel count for the same disk, plane and buffer. -/
theorem claim_C6 (img : BrushImage) (radius : ℕ) (x y : ℚ) (seg : ℕ) (lm : List ℕ)
    (threshold t1 t2 : ℚ) :
    ((∀ ij ∈ diskOffsets radius, ij.1 * ij.1 + ij.2 * ij.2 ≤ (radius : ℤ) * radius →
        ∀ k, coordIndex img x y ij = some k → huValue img k < threshold) →
      (paint img threshold radius x y seg lm).2 = 0) ∧
    (t1 ≤ t2 →
      (paint img t2 radius x y seg lm).2 ≤ (paint img t1 radius x y seg lm).2) := by
  constructor
  · intro hbelow
    by_cases hc : x < 0 ∨ (img.columns : ℚ) ≤ x ∨ y < 0 ∨ (img.rows : ℚ) ≤ y
    · rw [paint_out img threshold radius x y seg lm hc]
    · rw [paint_in img threshold radius x y seg lm hc]
      have hnil : paintHits img threshold radius x y = [] := by
        unfold paintHits
        rw [List.filterMap_eq_nil_iff]
        intro ij hij
        exact paintHit_eq_none_of_below img threshold radius x y ij (hbelow ij hij)
      rw [hnil]
      rfl
  · intro ht
    by_cases hc : x < 0 ∨ (img.columns : ℚ) ≤ x ∨ y < 0 ∨ (img.rows : ℚ) ≤ y
    · rw [paint_out img t2 radius x y seg lm hc, paint_out img t1 radius x y seg lm hc]
    · rw [paint_in img t2 radius x y seg lm hc, paint_in img t1 radius x y seg lm hc]
      exact filterMap_length_mono _ _ _
        (fun ij _ k hk => ⟨k, paintHit_mono img radius x y ij k t1 t2 ht hk⟩)

/-- C6 witness: a 3x3 plane whose plus-shaped disk cells (radius 1 around the
center) all hold 0 while the four bounding-square corners hold 300, above the
threshold 200 — the corners fail the disk test, the hypothesis covers only
the disk cells, and painting still writes zero pixels; the count at
threshold 200 is bounded by the count at threshold 3. -/
theorem claim_C6_witness :
    (∀ ij ∈ diskOffsets 1, ij.1 * ij.1 + ij.2 * ij.2 ≤ (1 : ℤ) * 1 →
      ∀ k, coordIndex ⟨3, 3, [300, 0, 300, 0, 0, 0, 300, 0, 300], 1, 0⟩ 1 1 ij = some k →
        huValue ⟨3, 3, [300, 0, 300, 0, 0, 0, 300, 0, 300], 1, 0⟩ k < 200) ∧
    ((1, 1) ∈ diskOffsets 1 ∧
      coordIndex ⟨3, 3, [300, 0, 300, 0, 0, 0, 300, 0, 300], 1, 0⟩ 1 1 (1, 1) = some 8 ∧
      (200 : ℚ) ≤ huValue ⟨3, 3, [300, 0, 300, 0, 0, 0, 300, 0, 300], 1, 0⟩ 8) ∧
    (paint ⟨3, 3, [300, 0, 300, 0, 0, 0, 300, 0, 300], 1, 0⟩ 200 1 1 1 1
      (List.replicate 9 0)).2 = 0 ∧
    (3 : ℚ) ≤ 200 ∧
    (paint ⟨3, 3, [300, 0, 300, 0, 0, 0, 300, 0, 300], 1, 0⟩ 200 1 1 1 1
        (List.replicate 9 0)).2
      ≤ (paint ⟨3, 3, [300, 0, 300, 0, 0, 0, 300, 0, 300], 1, 0⟩ 3 1 1 1 1
        (List.replicate 9 0)).2 := by
  have hb : ∀ ij ∈ diskOffsets 1, ij.1 * ij.1 + ij.2 * ij.2 ≤ (1 : ℤ) * 1 →
      ∀ k, coordIndex ⟨3, 3, [300, 0, 300, 0, 0, 0, 300, 0, 300], 1, 0⟩ 1 1 ij = some k →
        huValue ⟨3, 3, [300, 0, 300, 0, 0, 0, 300, 0, 300], 1, 0⟩ k < 200 := by
    intro ij hij hdisk k hk
    have hd1 : diskOffsets 1 = [(-1, -1), (-1, 0), (-1, 1), (0, -1), (0, 0), (0, 1),
        (1, -1), (1, 0), (1, 1)] := by decide
    rw [hd1] at hij
    simp only [List.mem_cons, List.not_mem_nil, or_false] at hij
    rcases hij with rfl | rfl | rfl | rfl | rfl | rfl | rfl | rfl | rfl
    · exact absurd hdisk (by decide)
    · norm_num [coordIndex] at hk
      have hke : k = 3 := by omega
      subst hke
      norm_num [huValue, List.getD]
    · exact absurd hdisk (by decide)
    · norm_num [coordIndex] at hk
      have hke : k = 1 := by omega
      subst hke
      norm_num [huValue, List.getD]
    · norm_num [coordIndex] at hk
      have hke : k = 4 := by omega
      subst hke
      norm_num [huValue, List.getD]
    · norm_num [coordIndex] at hk
      have hke : k = 7 := by omega
      subst hke
      norm_num [huValue, List.getD]
    · exact absurd hdisk (by decide)
    · norm_num [coordIndex] at hk
      have hke : k = 5 := by omega
      subst hke
      norm_num [huValue, List.getD]
    · exact absurd hdisk (by decide)
  have hcorner :
      coordIndex ⟨3, 3, [300, 0, 300, 0, 0, 0, 300, 0, 300], 1, 0⟩ 1 1 (1, 1) = some 8 := by
    norm_num [coordIndex]
    omega
  refine ⟨hb, ⟨by decide, hcorner, by norm_num [huValue]⟩, ?_, by norm_num, ?_⟩
  · exact (claim_C6 ⟨3, 3, [300, 0, 300, 0, 0, 0, 300, 0, 300], 1, 0⟩ 1 1 1 1
      (List.replicate 9 0) 200 3 200).1 hb
  · exact (claim_C6 ⟨3, 3, [300, 0, 300, 0, 0, 0, 300, 0, 300], 1, 0⟩ 1 1 1 1
      (List.replicate 9 0) 200 3 200).2 (by norm_num)

/-- The scenario image of the spec's brush test: a 3x3 plane whose rescaled
values are the row-major neighborhood 150,210,220 / 205,300,190 / 180,250,260
(slope 1, intercept 0). -/
def imgC5 : BrushImage := ⟨3, 3, [150, 210, 220, 205, 300, 190, 180, 250, 260], 1, 0⟩

set_option maxRecDepth 8000 in
lemma paint_imgC5_eval :
    paint imgC5 200 3 1 1 1 (List.replicate 9 0) = ([0, 1, 1, 1, 1, 0, 0, 1, 1], 6) := by
  norm_num [paint, paintStep, diskOffsets, imgC5, huValue, List.range, List.range.loop,
    List.getD]
  simp
  norm_num

/-- C5 counterexample: in the spec's scenario (segment 1, threshold 200,
radius 3, 3x3 neighborhood 150,210,220,205,300,190,180,250,260) the code sets
6 cells of the neighborhood to 1 — the values at or above 200 are
210,220,205,300,250,260, six of them — not 5 as the scenario states. -/
theorem claim_C5_counterexample :
    (([0, 1, 2, 3, 4, 5, 6, 7, 8] : List ℕ).filter
      (fun k => (paint imgC5 200 3 1 1 1 (List.replicate 9 0)).1.getD k 0 = 1)).length = 6 ∧
    ((([0, 1, 2, 3, 4, 5, 6, 7, 8] : List ℕ).filter
      (fun k => (paint imgC5 200 3 1 1 1 (List.replicate 9 0)).1.getD k 0 = 1)).length = 5
      → False) := by
  rw [paint_imgC5_eval]
  exact ⟨by decide, by decide⟩

/-- C5 amended: the scenario paints exactly 6 cells — precisely those whose
rescaled value is at or above 200 — to segment id 1, and leaves the remaining
3 neighborhood cells unchanged at 0. -/
theorem claim_C5_amended :
    (paint imgC5 200 3 1 1 1 (List.replicate 9 0)).2 = 6 ∧
    (∀ k, ((paint imgC5 200 3 1 1 1 (List.replicate 9 0)).1.getD k 0 = 1 ↔
      200 ≤ huValue imgC5 k)) := by
  rw [paint_imgC5_eval]
  constructor
  · rfl
  · intro k
    by_cases hk : k < 9
    · interval_cases k <;> norm_num [huValue, imgC5, List.getD]
    · have hL : ([0, 1, 1, 1, 1, 0, 0, 1, 1] : List ℕ).getD k 0 = 0 :=
        List.getD_eq_default _ _ (by simp; omega)
      have hp : huValue imgC5 k = 0 := by
        unfold huValue imgC5
        rw [List.getD_eq_default _ _ (by simp; omega)]
        norm_num
      rw [hL, hp]
      norm_num

lemma getD_replicate_self {α : Type} (a : α) (n k : ℕ) :
    (List.replicate n a).getD k a = a := by
  rw [List.getD_eq_getElem?_getD, List.getElem?_replicate]
  by_cases h : k < n
  · rw [if_pos h]
    rfl
  · rw [if_neg h]
    rfl

lemma offset_lt (A s n j : ℕ) (hs : s < n) (hj : j < A) : s * A + j < A * n :=
  calc s * A + j < (s + 1) * A := by rw [Nat.succ_mul]; omega
    _ ≤ n * A := Nat.mul_le_mul_right _ hs
    _ = A * n := Nat.mul_comm _ _

lemma onesIdx_replicate_zero (w h s m : ℕ) :
    onesIdx w h s (List.replicate m 0) = [] := by
  unfold onesIdx
  rw [List.filterMap_eq_nil_iff]
  intro j _
  rw [if_neg]
  rw [getD_replicate_self]
  omega

lemma count_one_replicate_zero (m : ℕ) : (List.replicate m (0 : ℕ)).count 1 = 0 := by
  induction m with
  | zero => rfl
  | succ m ih => rw [List.replicate_succ, List.count_cons, ih]; simp

/-- C8: starting from an all-zero label plane, painting once on slice `s`
(segment id 1) and then consolidating, with no other slice painted, yields a
mask with exactly `paintedPixels` entries equal to 1, all of them in slice
`s`'s layer at the painted in-plane offsets, and 0 everywhere else. -/
theorem claim_C8 (img : BrushImage) (threshold : ℚ) (radius : ℕ) (x y : ℚ)
    (s n : ℕ) (hs : s < n) :
    (extractLabelMap img.columns img.rows n
        (fun i => if i = s then
          some (paint img threshold radius x y 1
            (List.replicate (img.rows * img.columns) 0)).1
        else none)).count 1
      = (paint img threshold radius x y 1
          (List.replicate (img.rows * img.columns) 0)).2 ∧
    (∀ k,
      (extractLabelMap img.columns img.rows n
        (fun i => if i = s then
          some (paint img threshold radius x y 1
            (List.replicate (img.rows * img.columns) 0)).1
        else none)).getD k 0 = 1 ↔
        ∃ j, j < img.rows * img.columns ∧
          (paint img threshold radius x y 1
            (List.replicate (img.rows * img.columns) 0)).1.getD j 0 ≠ 0 ∧
          k = s * img.columns * img.rows + j) ∧
    (∀ k,
      (extractLabelMap img.columns img.rows n
        (fun i => if i = s then
          some (paint img threshold radius x y 1
            (List.replicate (img.rows * img.columns) 0)).1
        else none)).getD k 0 = 0 ∨
      (extractLabelMap img.columns img.rows n
        (fun i => if i = s then
          some (paint img threshold radius x y 1
            (List.replicate (img.rows * img.columns) 0)).1
        else none)).getD k 0 = 1) := by
  have hmask := extractLabelMap_single img.columns img.rows n s
    (paint img threshold radius x y 1 (List.replicate (img.rows * img.columns) 0)).1 hs
  rw [hmask]
  by_cases hc : x < 0 ∨ (img.columns : ℚ) ≤ x ∨ y < 0 ∨ (img.rows : ℚ) ≤ y
  · rw [paint_out img threshold radius x y 1 _ hc]
    dsimp only
    rw [onesIdx_replicate_zero]
    show ((setSeg (List.replicate (img.columns * img.rows * n) 0) [] 1).count 1 = 0) ∧ _
    rw [show setSeg (List.replicate (img.columns * img.rows * n) 0) [] 1
        = List.replicate (img.columns * img.rows * n) 0 from rfl]
    refine ⟨count_one_replicate_zero _, ?_, ?_⟩
    · intro k
      constructor
      · intro hk
        rw [getD_replicate_self] at hk
        exact absurd hk (by omega)
      · rintro ⟨j, -, hj, -⟩
        rw [getD_replicate_self] at hj
        exact absurd rfl hj
    · intro k
      left
      exact getD_replicate_self 0 _ k
  · rw [paint_in img threshold radius x y 1 _ hc]
    dsimp only
    set hits := paintHits img threshold radius x y with hhits
    set P := setSeg (List.replicate (img.rows * img.columns) 0) hits 1 with hP
    have hPlen : P.length = img.rows * img.columns := by
      rw [hP, setSeg_length, List.length_replicate]
    have hlt : ∀ k ∈ hits, k < img.rows * img.columns := by
      intro k hk
      obtain ⟨ij, -, hij⟩ := List.mem_filterMap.1 hk
      exact paintHit_some_lt img threshold radius x y ij k hij
    have hnd : hits.Nodup := paintHits_nodup img threshold radius x y
    have hPgetD : ∀ j, P.getD j 0 = if j ∈ hits then 1 else 0 := by
      intro j
      rw [hP, setSeg_getD, List.length_replicate]
      by_cases hj : j ∈ hits
      · rw [if_pos ⟨hj, hlt j hj⟩, if_pos hj]
      · rw [if_neg (fun hcon => hj hcon.1), if_neg hj]
        exact getD_replicate_self 0 _ j
    have hfilter : (List.range P.length).filter (fun j => 0 < P.getD j 0)
        = (List.range P.length).filter (fun j => j ∈ hits) := by
      refine List.filter_congr ?_
      intro j _
      rw [hPgetD j]
      by_cases hj : j ∈ hits
      · simp [hj]
      · simp [hj]
    have hperm : List.Perm ((List.range P.length).filter (fun j => j ∈ hits)) hits := by
      refine (List.perm_ext_iff_of_nodup (List.Nodup.filter _ (List.nodup_range _)) hnd).2 ?_
      intro a
      simp only [List.mem_filter, List.mem_range, decide_eq_true_eq]
      exact ⟨fun hx => hx.2, fun hx => ⟨by rw [hPlen]; exact hlt a hx, hx⟩⟩
    have hones : onesIdx img.columns img.rows s P
        = ((List.range P.length).filter (fun j => j ∈ hits)).map
            (fun j => s * img.columns * img.rows + j) := by
      unfold onesIdx
      rw [filterMap_if_eq_map_filter (fun j => 0 < P.getD j 0)
        (fun j => s * img.columns * img.rows + j) (List.range P.length), hfilter]
    have honeslen : (onesIdx img.columns img.rows s P).length = hits.length := by
      rw [hones, List.length_map, hperm.length_eq]
    have honesnd : (onesIdx img.columns img.rows s P).Nodup := by
      rw [hones]
      exact List.Nodup.map (fun a b hab => by omega)
        (List.Nodup.filter _ (List.nodup_range _))
    have honesmem : ∀ k, k ∈ onesIdx img.columns img.rows s P ↔
        ∃ j, j < img.rows * img.columns ∧ j ∈ hits ∧
          k = s * img.columns * img.rows + j := by
      intro k
      rw [hones]
      constructor
      · intro hk
        obtain ⟨j, hjmem, rfl⟩ := List.mem_map.1 hk
        have hj2 := List.mem_filter.1 hjmem
        refine ⟨j, ?_, by simpa using hj2.2, rfl⟩
        have := List.mem_range.1 hj2.1
        omega
      · rintro ⟨j, hjlt, hjmem, rfl⟩
        exact List.mem_map.2 ⟨j, List.mem_filter.2
          ⟨List.mem_range.2 (by omega), by simpa using hjmem⟩, rfl⟩
    have honesbound : ∀ k ∈ onesIdx img.columns img.rows s P,
        k < img.columns * img.rows * n := by
      intro k hk
      obtain ⟨j, hjlt, -, rfl⟩ := (honesmem k).1 hk
      have h1 : s * img.columns * img.rows = s * (img.columns * img.rows) :=
        Nat.mul_assoc _ _ _
      have h2 : j < img.columns * img.rows := by
        rw [Nat.mul_comm]
        exact hjlt
      have := offset_lt (img.columns * img.rows) s n j hs h2
      omega
    have hmasklen : (setSeg (List.replicate (img.columns * img.rows * n) 0)
        (onesIdx img.columns img.rows s P) 1).length = img.columns * img.rows * n := by
      rw [setSeg_length, List.length_replicate]
    refine ⟨?_, ?_, ?_⟩
    · rw [setSeg_count_ones _ _ honesnd
        (by rw [List.length_replicate]; exact honesbound)
        (fun k _ => getD_replicate_self 0 _ k), honeslen]
    · intro k
      rw [setSeg_getD, List.length_replicate]
      by_cases hk : k ∈ onesIdx img.columns img.rows s P ∧ k < img.columns * img.rows * n
      · rw [if_pos hk]
        constructor
        · intro _
          obtain ⟨j, hjlt, hjmem, rfl⟩ := (honesmem k).1 hk.1
          refine ⟨j, hjlt, ?_, rfl⟩
          rw [hPgetD j, if_pos hjmem]
          omega
        · intro _
          rfl
      · rw [if_neg hk]
        rw [getD_replicate_self]
        constructor
        · intro h01
          exact absurd h01 (by omega)
        · rintro ⟨j, hjlt, hjne, rfl⟩
          exfalso
          have hjmem : j ∈ hits := by
            by_contra hmem
            rw [hPgetD j, if_neg hmem] at hjne
            exact hjne rfl
          have hin : s * img.columns * img.rows + j ∈ onesIdx img.columns img.rows s P :=
            (honesmem _).2 ⟨j, hjlt, hjmem, rfl⟩
          exact hk ⟨hin, honesbound _ hin⟩
    · intro k
      rw [setSeg_getD, List.length_replicate]
      by_cases hk : k ∈ onesIdx img.columns img.rows s P ∧ k < img.columns * img.rows * n
      · rw [if_pos hk]
        right
        rfl
      · rw [if_neg hk]
        left
        exact getD_replicate_self 0 _ k

/-- C8 witness: a one-pixel plane painted above threshold on slice 0 of a
two-slice stack — the consolidated mask holds exactly one 1. -/
theorem claim_C8_witness :
    0 < 2 ∧
    (extractLabelMap 1 1 2
        (fun i => if i = 0 then
          some (paint ⟨1, 1, [300], 1, 0⟩ 200 0 0 0 1 (List.replicate (1 * 1) 0)).1
        else none)).count 1
      = (paint ⟨1, 1, [300], 1, 0⟩ 200 0 0 0 1 (List.replicate (1 * 1) 0)).2 :=
  ⟨by decide, (claim_C8 ⟨1, 1, [300], 1, 0⟩ 200 0 0 0 0 2 (by decide)).1⟩

/-- C10: the scalar buffer always has length `columns*rows*sliceCount`
(skipped slices included in the count); writing slice `i` touches only the
index range `[i*columns*rows, i*columns*rows + sliceLength)`; and in the
final buffer, slice `i`'s layer holds its converted pixel data when the
slice loaded with the right length and stays all zero otherwise. -/
theorem claim_C10 (columns rows : ℕ) (pl : List (Option (List ℤ))) :
    (buildScalarData columns rows pl).1.length = columns * rows * pl.length ∧
    (∀ (buf p : List ℤ) (i k : ℕ),
      k < i * columns * rows ∨ i * columns * rows + p.length ≤ k →
      (writeSlice buf (i * columns * rows) p).getD k 0 = buf.getD k 0) ∧
    (∀ i j, i < pl.length → j < columns * rows →
      (buildScalarData columns rows pl).1.getD (i * columns * rows + j) 0 =
        (match pl.getD i none with
         | some p => if p.length = columns * rows then toInt16 (p.getD j 0) else 0
         | none => 0)) := by
  refine ⟨?_, ?_, ?_⟩
  · unfold buildScalarData
    rw [buildLoop_length, List.length_replicate]
  · intro buf p i k hk
    rw [writeSlice_getD, if_neg]
    rintro ⟨h1, h2, -⟩
    omega
  · intro i j hi hj
    have hbuf : i * columns * rows + j
        < (List.replicate (columns * rows * pl.length) (0 : ℤ)).length := by
      rw [List.length_replicate]
      have h1 : i * columns * rows = i * (columns * rows) := Nat.mul_assoc _ _ _
      have h2 := offset_lt (columns * rows) i pl.length j hi hj
      omega
    unfold buildScalarData
    rw [buildLoop_getD columns rows pl (List.range pl.length) _ 0 i j hj hbuf]
    cases hpo : pl.getD i none with
    | none =>
        rw [if_neg (fun hcon => by simp [sliceOk] at hcon)]
        rw [getD_replicate_int]
    | some p =>
        by_cases hv : p.length = columns * rows
        · rw [if_pos ⟨List.mem_range.2 hi, by simp [sliceOk, hv]⟩]
          dsimp only
          rw [if_pos hv]
          rfl
        · rw [if_neg (fun hcon => by simp [sliceOk, hv] at hcon)]
          rw [getD_replicate_int]
          dsimp only
          rw [if_neg hv]

/-- C10 witness: a three-slice 1x2 stack in which slice 0 is valid, slice 1
fails to load and slice 2 has the wrong pixel count — the buffer has length
6, slice 0's layer holds the converted data and the other layers stay 0. -/
theorem claim_C10_witness :
    (buildScalarData 1 2 [some [3, 4], none, some [9]]).1.length = 1 * 2 * 3 ∧
    (buildScalarData 1 2 [some [3, 4], none, some [9]]).1.getD (0 * 1 * 2 + 1) 0 = 4 ∧
    (buildScalarData 1 2 [some [3, 4], none, some [9]]).1.getD (1 * 1 * 2 + 0) 0 = 0 ∧
    (buildScalarData 1 2 [some [3, 4], none, some [9]]).1.getD (2 * 1 * 2 + 0) 0 = 0 := by
  refine ⟨(claim_C10 1 2 [some [3, 4], none, some [9]]).1, ?_, ?_, ?_⟩
  · exact ((claim_C10 1 2 [some [3, 4], none, some [9]]).2.2 0 1 (by decide)
      (by decide)).trans (by decide)
  · exact ((claim_C10 1 2 [some [3, 4], none, some [9]]).2.2 1 0 (by decide)
      (by decide)).trans (by decide)
  · exact ((claim_C10 1 2 [some [3, 4], none, some [9]]).2.2 2 0 (by decide)
      (by decide)).trans (by decide)

end MedApp
